import Mathlib

/-!
Verification development for the runner-lifecycle scripts of `futhark-ci`
(`runner.py` and `setup-runner.py`).

The development shallowly embeds the two scripts:

* The operating-system process tree, as observed through `ps -p <pid> -o comm=`
  and `pgrep -P <pid>`, is modelled as a finite rose tree `PTree`: each node
  carries the pid, the result of the `ps` name query (`none` models a query
  that fails because the process has already exited, i.e. `ps` exits nonzero;
  `some s` models `ps` printing `s`, possibly the empty string), and the list
  of child processes returned by `pgrep -P`.
* The filesystem and subprocess environment touched by the scripts is a
  `World` record: the current working directory, whether `actions-runner`
  exists, the contents of the `.pid` and `.token` files, whether `config.sh`
  exists, the process trees, the pid the OS assigns to the `Popen` of
  `./run.sh`, and the exit codes the vendor commands will return.
* Each lifecycle operation is a function `World → Res` where `Res` packages
  the final world, an optional raised exception (Python exceptions propagate;
  `with` blocks still run their `__exit__`), and a trace of the externally
  visible events (signals sent, vendor removal invocations, directory
  deletion, process launches, locator invocations).

Functions from `runner.py` live in the `Runner` namespace, functions from
`setup-runner.py` in the `SetupRunner` namespace.
-/

/-- A snapshot of the process tree rooted at some process: pid, the result of
the `ps -p pid -o comm=` query (`none` = the query fails because the process
is gone, `some s` = it prints `s`), and the children listed by `pgrep -P`. -/
inductive PTree : Type where
  | node (pid : Nat) (ps : Option String) (children : List PTree)

/-- The pid stored at the root of a process (sub)tree. -/
def PTree.pid : PTree → Nat
  | .node p _ _ => p

/-- The `ps` name-query result stored at the root of a process (sub)tree. -/
def PTree.ps : PTree → Option String
  | .node _ n _ => n

/-- The direct children of the root, as `pgrep -P` reports them. -/
def PTree.children : PTree → List PTree
  | .node _ _ cs => cs

mutual

/-- Number of nodes of a process tree. -/
def PTree.size : PTree → Nat
  | .node _ _ cs => 1 + PTree.sizeList cs

/-- Total number of nodes of a list of process trees. -/
def PTree.sizeList : List PTree → Nat
  | [] => 0
  | t :: ts => PTree.size t + PTree.sizeList ts

end

mutual

/-- All nodes of a process tree (the tree itself and, recursively, the
subtrees rooted at each descendant). -/
def PTree.allNodes : PTree → List PTree
  | .node p n cs => .node p n cs :: PTree.allNodesList cs

/-- All nodes of a list of process trees. -/
def PTree.allNodesList : List PTree → List PTree
  | [] => []
  | t :: ts => PTree.allNodes t ++ PTree.allNodesList ts

end

mutual

/-- Modelled effect of `os.kill(p, SIGKILL)` on a process-tree snapshot: the
process with pid `p` disappears from the process table, so later `ps` queries
for it fail and `pgrep -P p` reports no children (its children are reparented
away from the tree). -/
def PTree.kill (p : Nat) : PTree → PTree
  | .node q n cs => if q = p then .node q none [] else .node q n (PTree.killList p cs)

/-- `PTree.kill` mapped over a list of trees. -/
def PTree.killList (p : Nat) : List PTree → List PTree
  | [] => []
  | t :: ts => PTree.kill p t :: PTree.killList p ts

end

/-- Embedding of Python `int(s)` restricted to the decimal strings the
scripts themselves write into `.pid`: a nonempty all-digit string parses to
the number it denotes, anything else models `int` raising `ValueError`. -/
def pyInt (s : String) : Option Nat :=
  match s.data with
  | [] => none
  | l => pyIntAux l 0
where
  /-- Accumulator loop over the characters. -/
  pyIntAux : List Char → Nat → Option Nat
    | [], acc => some acc
    | c :: cs, acc =>
      if '0' ≤ c ∧ c ≤ '9' then pyIntAux cs (acc * 10 + (c.toNat - '0'.toNat))
      else none

/-- `find_process_name` from `runner.py`: runs the `ps` name query for a pid;
a `CalledProcessError` (the process has exited) is caught and turned into
`None`, and an empty name is also turned into `None`. -/
def Runner.find_process_name (t : PTree) : Option String :=
  match t.ps with
  | none => none
  | some s => if s = "" then none else some s

/-- `find_process_name` from `setup-runner.py`: the same `ps` query, but with
no `try`/`except`, so a failing query raises `CalledProcessError`
(`Except.error ()`); an empty name becomes `None`. -/
def SetupRunner.find_process_name (t : PTree) : Except Unit (Option String) :=
  match t.ps with
  | none => .error ()
  | some s => .ok (if s = "" then none else some s)

/-- `find_child_processes` (identical in both scripts): `pgrep -P pid`, with a
failing `pgrep` (no children) caught and turned into the empty list. In the
snapshot model this is the stored child list. -/
def find_child_processes (t : PTree) : List PTree :=
  t.children

/-- The queue loop of `find_child_search` from `runner.py`, with an explicit
fuel argument bounding the number of loop iterations. The loop dequeues the
front of the queue, returns its pid when the name query yields the target
name, and otherwise enqueues the children. `Runner.find_child_search_q` below
always supplies enough fuel (the total node count), which
`Runner.find_child_search_q_cons` proves is exact. -/
def Runner.bfsAux (child_name : String) : Nat → List PTree → Option Nat
  | _, [] => none
  | 0, _ :: _ => none
  | fuel+1, t :: queue =>
    if Runner.find_process_name t = some child_name then some t.pid
    else Runner.bfsAux child_name fuel (queue ++ find_child_processes t)

/-- The `runner.py` breadth-first search run from an arbitrary initial
queue. -/
def Runner.find_child_search_q (child_name : String) (queue : List PTree) : Option Nat :=
  Runner.bfsAux child_name (PTree.sizeList queue) queue

/-- `find_child_search` from `runner.py`: level-order traversal of the
process tree rooted at `pid`, looking for a child process with the given
name; the queue is initialised with the root. -/
def Runner.find_child_search (t : PTree) (child_name : String) : Option Nat :=
  Runner.find_child_search_q child_name [t]

/-- The queue loop of `find_child_search` from `setup-runner.py`: identical
to the `runner.py` loop except that the name query can raise, which aborts
the search with the exception. -/
def SetupRunner.bfsAux (child_name : String) : Nat → List PTree → Except Unit (Option Nat)
  | _, [] => .ok none
  | 0, _ :: _ => .ok none
  | fuel+1, t :: queue =>
    match SetupRunner.find_process_name t with
    | .error e => .error e
    | .ok n =>
      if n = some child_name then .ok (some t.pid)
      else SetupRunner.bfsAux child_name fuel (queue ++ find_child_processes t)

/-- The `setup-runner.py` breadth-first search run from an arbitrary initial
queue. -/
def SetupRunner.find_child_search_q (child_name : String) (queue : List PTree) :
    Except Unit (Option Nat) :=
  SetupRunner.bfsAux child_name (PTree.sizeList queue) queue

/-- `find_child_search` from `setup-runner.py`. -/
def SetupRunner.find_child_search (t : PTree) (child_name : String) : Except Unit (Option Nat) :=
  SetupRunner.find_child_search_q child_name [t]

/-- The level-order (breadth-first) listing of the nodes reachable from a
queue of trees: dequeue the front, emit it, enqueue its children. Defined
with the same fuel discipline as the searches. -/
def levelOrderAux : Nat → List PTree → List PTree
  | _, [] => []
  | 0, _ :: _ => []
  | fuel+1, t :: queue => t :: levelOrderAux fuel (queue ++ t.children)

/-- Level-order listing started from a queue, with enough fuel. -/
def levelOrderQ (queue : List PTree) : List PTree :=
  levelOrderAux (PTree.sizeList queue) queue

/-- Depth-annotated level-order listing: each queue entry carries the depth
(relative to the original roots) at which it sits; children are enqueued with
depth one greater. -/
def levelOrderDAux : Nat → List (Nat × PTree) → List (Nat × PTree)
  | _, [] => []
  | 0, _ :: _ => []
  | fuel+1, (d, t) :: queue =>
    (d, t) :: levelOrderDAux fuel (queue ++ t.children.map (fun c => (d + 1, c)))

/-- Total node count of a depth-annotated queue. -/
def sizeListD (queue : List (Nat × PTree)) : Nat :=
  PTree.sizeList (queue.map Prod.snd)

/-- Depth-annotated level-order listing started from a queue. -/
def levelOrderD (queue : List (Nat × PTree)) : List (Nat × PTree) :=
  levelOrderDAux (sizeListD queue) queue

/-- Externally visible events an operation performs, in order: a `SIGKILL`
sent to a pid, the vendor deregistration command `./config.sh remove --token
<tok>`, the deletion of the work directory (`shutil.rmtree`), the launch of
`./run.sh` (recording the pid `Popen` returns), and an invocation of the
process-tree locator `find_child_search(root, target)`. -/
inductive Ev : Type where
  | kill (pid : Nat)
  | vendorRemove (token : String)
  | rmtree
  | launch (pid : Nat)
  | locate (root : Nat) (target : String)
deriving DecidableEq

/-- Exceptions the scripts raise: a failed `assert`, `ValueError` from
`int()`, an uncaught `CalledProcessError` from `subprocess.check_output`, and
a plain Python `Exception` carrying its message. -/
inductive Err : Type where
  | assertFail
  | valueError
  | calledProcessError
  | exc (msg : String)
deriving DecidableEq

/-- The filesystem and subprocess environment a lifecycle operation sees and
mutates. `pidFile`/`tokenFile` are `none` when the file is absent and `some
s` when it exists with contents `s`. `treeOf p` is the snapshot of the
process tree rooted at pid `p` that the OS queries would report. `runPid` is
the pid the OS assigns when `./run.sh` is spawned. `installExits`,
`configExit` and `removeExit` are the exit codes the installation commands,
`./config.sh --unattended ...` and `./config.sh remove ...` will return. -/
structure World : Type where
  cwd : String
  folder : Bool
  pidFile : Option String
  tokenFile : Option String
  configSh : Bool
  treeOf : Nat → PTree
  runPid : Nat
  installExits : List Nat
  configExit : Nat
  removeExit : Nat

/-- Result of running one lifecycle operation: the final world, the
exception that propagated to the caller (`none` = the operation returned
normally), and the trace of externally visible events. -/
structure Res : Type where
  world : World
  err : Option Err
  tr : List Ev

/-- The `RUNNER_FOLDER` constant of both scripts. -/
def RUNNER_FOLDER : String := "actions-runner"

/-- The fixed name of the listener process both scripts search for. -/
def LISTENER : String := "Runner.Listener"

/-- The `Chdir` context manager of both scripts: the constructor saves
`os.getcwd()`, `__enter__` changes into the given path, and `__exit__`
changes back to the saved path unconditionally — in particular also when the
body raises, because `with` runs `__exit__` while the exception propagates. -/
def withChdir (path : String) (body : World → Res) (w : World) : Res :=
  let oldPath := w.cwd
  let r := body { w with cwd := path }
  { r with world := { r.world with cwd := oldPath } }

/-- The modelled effect of `os.kill(q, SIGKILL)` on the whole process table:
every snapshot loses the process with pid `q`. -/
def killWorld (w : World) (q : Nat) : World :=
  { w with treeOf := fun r => (w.treeOf r).kill q }

/-- `stop_runner` from `runner.py`: assert the folder exists; inside
`Chdir(RUNNER_FOLDER)`, return if `.pid` is absent or empty, otherwise parse
the recorded pid, search the tree rooted at it for `Runner.Listener`, return
if the search finds nothing, and otherwise `SIGKILL` the found pid (a
`ProcessLookupError` from the kill would be swallowed; in the snapshot model
the found process exists, so the kill succeeds). The pid file is not
modified. -/
def Runner.stop_runner (w : World) : Res :=
  if !w.folder then ⟨w, some .assertFail, []⟩
  else
    withChdir (w.cwd ++ "/" ++ RUNNER_FOLDER)
      (fun w1 =>
        match w1.pidFile with
        | none => ⟨w1, none, []⟩
        | some s =>
          if s = "" then ⟨w1, none, []⟩
          else
            match pyInt s with
            | none => ⟨w1, some .valueError, []⟩
            | some p =>
              match Runner.find_child_search (w1.treeOf p) LISTENER with
              | none => ⟨w1, none, [.locate p LISTENER]⟩
              | some q => ⟨killWorld w1 q, none, [.locate p LISTENER, .kill q]⟩)
      w

/-- The removal-failure message of `runner.py`, split so that the remediation
hint is an explicit suffix. -/
def Runner.removalHint : String :=
  "try getting the token of the runner from https://github.com/SelfHostedRunnerTest/futhark/settings/actions/runners"

/-- The full removal-failure message of `runner.py`. -/
def Runner.removalMsg : String :=
  "Error in runner removal: If \"Failed: Removing runner from the server\" " ++ Runner.removalHint

/-- `remove_runner` from `runner.py`: assert the folder exists; inside
`Chdir(RUNNER_FOLDER)`, if `./config.sh` exists run `./config.sh remove
--token <token>` with the token *passed by the caller* and raise on a nonzero
exit; after the `with` block, delete the work directory. Note that the
persisted `.token` file is never read. -/
def Runner.remove_runner (token : String) (w : World) : Res :=
  if !w.folder then ⟨w, some .assertFail, []⟩
  else
    let r :=
      withChdir (w.cwd ++ "/" ++ RUNNER_FOLDER)
        (fun w1 =>
          if w1.configSh then
            if w1.removeExit ≠ 0 then
              ⟨w1, some (.exc Runner.removalMsg), [.vendorRemove token]⟩
            else ⟨w1, none, [.vendorRemove token]⟩
          else ⟨w1, none, []⟩)
        w
    if r.err.isSome then r
    else ⟨{ r.world with folder := false }, none, r.tr ++ [.rmtree]⟩

/-- The message of the exception `clean_up` from `runner.py` raises when the
folder is absent. -/
def Runner.cleanMsg : String :=
  RUNNER_FOLDER ++ " does not exists so the runner can not be cleaned up."

/-- `clean_up` from `runner.py`: raise if the folder is absent, otherwise run
`stop_runner()` and then `remove_runner(token)` (an exception from
`stop_runner` propagates before `remove_runner` runs). -/
def Runner.clean_up (token : String) (w : World) : Res :=
  if !w.folder then ⟨w, some (.exc Runner.cleanMsg), []⟩
  else
    let r1 := Runner.stop_runner w
    if r1.err.isSome then r1
    else
      let r2 := Runner.remove_runner token r1.world
      ⟨r2.world, r2.err, r1.tr ++ r2.tr⟩

/-- `start` from `runner.py`: run `stop_runner()` first, assert the folder
exists, then inside `Chdir(RUNNER_FOLDER)` spawn `./run.sh` with `Popen`
(obtaining pid `runPid`), sleep for the fixed grace period, and write that
launcher pid into `.pid` unconditionally — this revision never invokes
`find_child_search`. -/
def Runner.start (w : World) : Res :=
  let r1 := Runner.stop_runner w
  if r1.err.isSome then r1
  else if !r1.world.folder then ⟨r1.world, some .assertFail, r1.tr⟩
  else
    let r2 :=
      withChdir (r1.world.cwd ++ "/" ++ RUNNER_FOLDER)
        (fun w1 => ⟨{ w1 with pidFile := some (toString w1.runPid) }, none, [.launch w1.runPid]⟩)
        r1.world
    ⟨r2.world, r2.err, r1.tr ++ r2.tr⟩

/-- The installation-failure message of `runner.py`. -/
def Runner.installMsg : String := "Something went wrong doing installation"

/-- The stale-registration hint inside the configuration-failure message. -/
def configHintCore : String := "A runner exists with the same name"

/-- The registration flags `setup` receives (token, coordinator URL, runner
name, labels), already validated by the caller. -/
structure Flags : Type where
  token : String
  url : String
  name : String
  labels : String

/-- The configuration-failure message of `runner.py`, as the f-string builds
it; parenthesised so that the stale-registration hint is a visible infix. -/
def Runner.configMsg (flags : Flags) : String :=
  "Something went wrong doing configuration.\nIf the error is: \x27" ++
    (configHintCore ++
      ("\x27\nThen try going to " ++ flags.url ++ "/settings/actions/runners" ++
        "\nand remove the runner with name: " ++ flags.name ++ " or use another name."))

/-- `setup` from `runner.py`: assert the folder does not exist, create it
(`os.mkdir`, so it starts empty: no `.pid`, no `.token`, no `config.sh`);
inside `Chdir(RUNNER_FOLDER)`, run the installation commands and raise if any
exits nonzero, run `./config.sh --unattended <flags>` (the extracted package
provides `config.sh`) and raise the configuration message if it exits
nonzero, and finally write the registration token into `.token`. Nothing is
rolled back on failure. -/
def Runner.setup (flags : Flags) (w : World) : Res :=
  if w.folder then ⟨w, some .assertFail, []⟩
  else
    let w0 : World :=
      { w with folder := true, pidFile := none, tokenFile := none, configSh := false }
    withChdir (w.cwd ++ "/" ++ RUNNER_FOLDER)
      (fun w1 =>
        if w1.installExits.any (· ≠ 0) then ⟨w1, some (.exc Runner.installMsg), []⟩
        else
          let w2 := { w1 with configSh := true }
          if w2.configExit ≠ 0 then ⟨w2, some (.exc (Runner.configMsg flags)), []⟩
          else ⟨{ w2 with tokenFile := some flags.token }, none, []⟩)
      w0

/-- The removal-failure message of `setup-runner.py`. -/
def SetupRunner.removeMsg : String :=
  "Error in runner removal: If \"Failed: Removing runner from the server\" try getting a new token."

/-- `remove_old_runner` from `setup-runner.py`: assert the folder exists;
inside `Chdir(RUNNER_FOLDER)`, return if `.token` is absent or empty,
otherwise run `./config.sh remove --token <persisted token>` with the token
read from the file and raise on a nonzero exit. The folder itself is not
deleted here (that happens in `clean_up`). -/
def SetupRunner.remove_old_runner (w : World) : Res :=
  if !w.folder then ⟨w, some .assertFail, []⟩
  else
    withChdir (w.cwd ++ "/" ++ RUNNER_FOLDER)
      (fun w1 =>
        match w1.tokenFile with
        | none => ⟨w1, none, []⟩
        | some t =>
          if t = "" then ⟨w1, none, []⟩
          else if w1.removeExit ≠ 0 then ⟨w1, some (.exc SetupRunner.removeMsg), [.vendorRemove t]⟩
          else ⟨w1, none, [.vendorRemove t]⟩)
      w

/-- `stop_old_runner` from `setup-runner.py`: assert the folder exists;
inside `Chdir(RUNNER_FOLDER)`, return if `.pid` is absent or empty, otherwise
`SIGKILL` the recorded pid directly (no tree search), swallowing the
`ProcessLookupError` raised when that pid no longer exists. -/
def SetupRunner.stop_old_runner (w : World) : Res :=
  if !w.folder then ⟨w, some .assertFail, []⟩
  else
    withChdir (w.cwd ++ "/" ++ RUNNER_FOLDER)
      (fun w1 =>
        match w1.pidFile with
        | none => ⟨w1, none, []⟩
        | some s =>
          if s = "" then ⟨w1, none, []⟩
          else
            match pyInt s with
            | none => ⟨w1, some .valueError, []⟩
            | some p =>
              if (w1.treeOf p).ps = none then ⟨w1, none, []⟩
              else ⟨killWorld w1 p, none, [.kill p]⟩)
      w

/-- The message of the exception `clean_up` from `setup-runner.py` raises
when the folder is absent. -/
def SetupRunner.cleanMsg : String :=
  ".actions-runner does not exists so the runner cannot be cleaned up."

/-- `clean_up` from `setup-runner.py`: raise if the folder is absent,
otherwise run `remove_old_runner()` FIRST, then `stop_old_runner()`, then
delete the work directory — the deregistration precedes the stop in this
revision. -/
def SetupRunner.clean_up (w : World) : Res :=
  if !w.folder then ⟨w, some (.exc SetupRunner.cleanMsg), []⟩
  else
    let r1 := SetupRunner.remove_old_runner w
    if r1.err.isSome then r1
    else
      let r2 := SetupRunner.stop_old_runner r1.world
      if r2.err.isSome then ⟨r2.world, r2.err, r1.tr ++ r2.tr⟩
      else ⟨{ r2.world with folder := false }, none, r1.tr ++ r2.tr ++ [.rmtree]⟩

/-- `start` from `setup-runner.py`: run `stop_old_runner()` first, assert the
folder exists, then inside `Chdir(RUNNER_FOLDER)` spawn `./run.sh` with
`Popen` (obtaining pid `runPid`), sleep for the fixed grace period, and run
`find_child_search(runPid, "Runner.Listener")`; if it raises, the exception
propagates; if it finds a pid, write that pid into `.pid`; if it finds
nothing, return without touching `.pid`. -/
def SetupRunner.start (w : World) : Res :=
  let r1 := SetupRunner.stop_old_runner w
  if r1.err.isSome then r1
  else if !r1.world.folder then ⟨r1.world, some .assertFail, r1.tr⟩
  else
    let r2 :=
      withChdir (r1.world.cwd ++ "/" ++ RUNNER_FOLDER)
        (fun w1 =>
          match SetupRunner.find_child_search (w1.treeOf w1.runPid) LISTENER with
          | .error _ =>
            ⟨w1, some .calledProcessError, [.launch w1.runPid, .locate w1.runPid LISTENER]⟩
          | .ok none => ⟨w1, none, [.launch w1.runPid, .locate w1.runPid LISTENER]⟩
          | .ok (some p) =>
            ⟨{ w1 with pidFile := some (toString p) }, none,
              [.launch w1.runPid, .locate w1.runPid LISTENER]⟩)
        r1.world
    ⟨r2.world, r2.err, r1.tr ++ r2.tr⟩

/-- The installation-failure message of `setup-runner.py`. -/
def SetupRunner.installMsg : String := "Something went wrong doing installation"

/-- The configuration-failure message of `setup-runner.py`. -/
def SetupRunner.configMsg (flags : Flags) : String :=
  "Something went wrong doing configuration.\nIf the error is: \x27" ++
    (configHintCore ++
      ("\x27\nThen try going to " ++ flags.url ++ "/settings/actions/runners" ++
        "\nand remove the runner with name: " ++ flags.name))

/-- `setup` from `setup-runner.py`: same shape as the `runner.py` version
(the installation commands are joined with `&&` into one `os.system` call,
which fails iff some command fails). -/
def SetupRunner.setup (flags : Flags) (w : World) : Res :=
  if w.folder then ⟨w, some .assertFail, []⟩
  else
    let w0 : World :=
      { w with folder := true, pidFile := none, tokenFile := none, configSh := false }
    withChdir (w.cwd ++ "/" ++ RUNNER_FOLDER)
      (fun w1 =>
        if w1.installExits.any (· ≠ 0) then ⟨w1, some (.exc SetupRunner.installMsg), []⟩
        else
          let w2 := { w1 with configSh := true }
          if w2.configExit ≠ 0 then ⟨w2, some (.exc (SetupRunner.configMsg flags)), []⟩
          else ⟨{ w2 with tokenFile := some flags.token }, none, []⟩)
      w0

/-- Persisted Runner State `isInstalled` (spec §4.2): existence of the work
directory, the `os.path.exists(RUNNER_FOLDER)` check both scripts use. -/
def isInstalled (w : World) : Bool := w.folder

/-- Persisted Runner State `readToken` (spec §4.2), following the read
pattern of `remove_old_runner` in `setup-runner.py`: `None` when the token
file is absent or empty, its contents otherwise. -/
def readToken (w : World) : Option String :=
  match w.tokenFile with
  | none => none
  | some s => if s = "" then none else some s

/-- Whether an event is a `SIGKILL`. -/
def Ev.isKill : Ev → Bool
  | .kill _ => true
  | _ => false

/-- Whether an event deregisters the runner at the coordinator. -/
def Ev.isRemove : Ev → Bool
  | .vendorRemove _ => true
  | _ => false

/-- Whether an event destroys the installation or launches a new listener:
vendor deregistration, work-directory deletion, or a `./run.sh` launch. -/
def Ev.isDestructive : Ev → Bool
  | .vendorRemove _ => true
  | .rmtree => true
  | .launch _ => true
  | _ => false

/-- `afterEv p q tr` holds when some event satisfying `q` occurs strictly
after some event satisfying `p` in the trace `tr`. -/
def afterEv (p q : Ev → Bool) : List Ev → Bool
  | [] => false
  | e :: rest => (p e && rest.any q) || afterEv p q rest

/-- How many nodes of a tree the `runner.py` name query matches against a
target name. -/
def countMatches (t : PTree) (child_name : String) : Nat :=
  t.allNodes.countP (fun n => Runner.find_process_name n == some child_name)

/-- A base world used by the concrete examples: clean filesystem, every pid
maps to an already-exited process, all vendor commands succeed. -/
def baseW : World :=
  { cwd := "/home/user", folder := false, pidFile := none, tokenFile := none,
    configSh := false, treeOf := fun p => PTree.node p none [], runPid := 42,
    installExits := [0, 0, 0, 0], configExit := 0, removeExit := 0 }

/-- Installed world with no recorded pid whose launched `./run.sh` (pid 42)
never forks a `Runner.Listener`: every process is a plain `bash`. -/
def c1w : World :=
  { baseW with
    folder := true
    configSh := true
    treeOf := fun p => PTree.node p (some "bash") [] }

/-- Installed world with no recorded pid where the launched `./run.sh`
(pid 42) has forked a `Runner.Listener` child with pid 43. -/
def s1w : World :=
  { baseW with
    folder := true
    configSh := true
    treeOf := fun p => PTree.node p (some "bash") [PTree.node 43 (some "Runner.Listener") []] }

/-- The world `c1w` with a stale recorded pid 9 (its process is a live plain
`bash`, not a listener), for exercising `start` from a non-fresh state. -/
def s1stale : World := { c1w with pidFile := some "9" }

/-- Installed world with a live recorded listener (pid 9) and a persisted
token, for exercising `clean_up`. -/
def c2w : World :=
  { baseW with
    folder := true
    configSh := true
    pidFile := some "9"
    tokenFile := some "t0"
    treeOf := fun p => PTree.node p (some "run.sh") [] }

/-- Installed world with persisted token `"tokA"`, for exercising
`remove_runner` with a different caller-supplied token. -/
def c5w : World :=
  { baseW with folder := true, configSh := true, tokenFile := some "tokA" }

/-- Installed world with recorded pid 7 whose tree contains exactly one
`Runner.Listener`, at pid 8. -/
def w6base : World :=
  { baseW with
    folder := true
    pidFile := some "7"
    treeOf := fun _ => PTree.node 7 (some "bash") [PTree.node 8 (some "Runner.Listener") []] }

/-- The world `w6base` after the listener (pid 8) has been killed. -/
def w6killed : World :=
  { w6base with treeOf := fun r => (w6base.treeOf r).kill 8 }

/-- Uninstalled world whose configure step will exit 1. -/
def w7 : World := { baseW with configExit := 1 }

/-- Installed world whose vendor removal command will exit 1. -/
def w8 : World := { baseW with folder := true, configSh := true, removeExit := 1 }

/-- Installed world whose vendor removal command will exit 0. -/
def w8ok : World := { baseW with folder := true, configSh := true }

/-- A process tree with two `Runner.Listener` nodes: pid 3 at depth 1 and
pid 4 at depth 2 (below a non-matching sibling explored first). -/
def c3tree : PTree :=
  PTree.node 1 (some "bash")
    [PTree.node 2 (some "sh") [PTree.node 4 (some "Runner.Listener") []],
     PTree.node 3 (some "Runner.Listener") []]

/-- A tree whose root process has already exited. -/
def c4tree : PTree := PTree.node 5 none []

/-- Concrete registration flags for the examples. -/
def flags0 : Flags :=
  { token := "TOKEN123", url := "https://github.com/diku-dk/futhark",
    name := "futhark01", labels := "cuda,opencl" }

mutual

/-- Decidable equality of process trees, by structural comparison. -/
def PTree.decEq : (a b : PTree) → Decidable (a = b)
  | .node p₁ n₁ c₁, .node p₂ n₂ c₂ =>
    if hp : p₁ = p₂ then
      if hn : n₁ = n₂ then
        match PTree.decEqList c₁ c₂ with
        | isTrue hc => isTrue (by rw [hp, hn, hc])
        | isFalse hc => isFalse (by intro h; injection h; contradiction)
      else isFalse (by intro h; injection h; contradiction)
    else isFalse (by intro h; injection h; contradiction)

/-- Decidable equality of lists of process trees. -/
def PTree.decEqList : (xs ys : List PTree) → Decidable (xs = ys)
  | [], [] => isTrue rfl
  | [], _ :: _ => isFalse (fun h => List.noConfusion h)
  | _ :: _, [] => isFalse (fun h => List.noConfusion h)
  | x :: xs, y :: ys =>
    match PTree.decEq x y, PTree.decEqList xs ys with
    | isTrue h1, isTrue h2 => isTrue (by rw [h1, h2])
    | isFalse h1, _ => isFalse (by intro h; injection h; contradiction)
    | _, isFalse h2 => isFalse (by intro h; injection h; contradiction)

end

instance : DecidableEq PTree := PTree.decEq

theorem PTree.size_eq (t : PTree) : t.size = 1 + PTree.sizeList t.children := by
  cases t with
  | node p n cs => rfl

theorem PTree.size_pos (t : PTree) : 0 < t.size := by
  rw [PTree.size_eq]; omega

theorem PTree.sizeList_nil : PTree.sizeList [] = 0 := rfl

theorem PTree.sizeList_cons (t : PTree) (ts : List PTree) :
    PTree.sizeList (t :: ts) = t.size + PTree.sizeList ts := rfl

theorem PTree.sizeList_append (xs ys : List PTree) :
    PTree.sizeList (xs ++ ys) = PTree.sizeList xs + PTree.sizeList ys := by
  induction xs with
  | nil => simp [PTree.sizeList]
  | cons t ts ih => simp [PTree.sizeList, ih]; omega

theorem PTree.sizeList_cons_eq (t : PTree) (ts : List PTree) :
    PTree.sizeList (t :: ts) = PTree.sizeList (ts ++ t.children) + 1 := by
  rw [PTree.sizeList_cons, PTree.sizeList_append, PTree.size_eq]; omega

theorem PTree.allNodesList_nil : PTree.allNodesList [] = [] := rfl

theorem PTree.allNodesList_cons (t : PTree) (ts : List PTree) :
    PTree.allNodesList (t :: ts) = PTree.allNodes t ++ PTree.allNodesList ts := rfl

theorem PTree.allNodes_eq (t : PTree) :
    t.allNodes = t :: PTree.allNodesList t.children := by
  cases t with
  | node p n cs => rfl

theorem PTree.allNodesList_append (xs ys : List PTree) :
    PTree.allNodesList (xs ++ ys) = PTree.allNodesList xs ++ PTree.allNodesList ys := by
  induction xs with
  | nil => simp [PTree.allNodesList]
  | cons t ts ih => simp [PTree.allNodesList_cons, ih]

theorem PTree.allNodesList_singleton (t : PTree) :
    PTree.allNodesList [t] = t.allNodes := by
  rw [PTree.allNodesList_cons, PTree.allNodesList_nil, List.append_nil]

theorem Runner.bfsAux_nil (child_name : String) (fuel : Nat) :
    Runner.bfsAux child_name fuel [] = none := by
  cases fuel <;> rfl

theorem Runner.find_child_search_q_nil (child_name : String) :
    Runner.find_child_search_q child_name [] = none := rfl

theorem Runner.find_child_search_q_cons (child_name : String) (t : PTree) (queue : List PTree) :
    Runner.find_child_search_q child_name (t :: queue) =
      if Runner.find_process_name t = some child_name then some t.pid
      else Runner.find_child_search_q child_name (queue ++ t.children) := by
  unfold Runner.find_child_search_q
  rw [PTree.sizeList_cons_eq]
  rfl

theorem SetupRunner.bfsAux_nil_s (child_name : String) (fuel : Nat) :
    SetupRunner.bfsAux child_name fuel [] = .ok none := by
  cases fuel <;> rfl

theorem SetupRunner.find_child_search_q_nil_s (child_name : String) :
    SetupRunner.find_child_search_q child_name [] = .ok none := rfl

theorem SetupRunner.find_child_search_q_cons_s (child_name : String) (t : PTree)
    (queue : List PTree) :
    SetupRunner.find_child_search_q child_name (t :: queue) =
      match SetupRunner.find_process_name t with
      | .error e => .error e
      | .ok n =>
        if n = some child_name then .ok (some t.pid)
        else SetupRunner.find_child_search_q child_name (queue ++ t.children) := by
  unfold SetupRunner.find_child_search_q
  rw [PTree.sizeList_cons_eq]
  rfl

theorem levelOrderAux_nil (fuel : Nat) : levelOrderAux fuel [] = [] := by
  cases fuel <;> rfl

theorem levelOrderQ_nil : levelOrderQ [] = [] := rfl

theorem levelOrderQ_cons (t : PTree) (queue : List PTree) :
    levelOrderQ (t :: queue) = t :: levelOrderQ (queue ++ t.children) := by
  unfold levelOrderQ
  rw [PTree.sizeList_cons_eq]
  rfl

theorem sizeListD_nil : sizeListD [] = 0 := rfl

theorem sizeListD_cons_eq (d : Nat) (t : PTree) (queue : List (Nat × PTree)) :
    sizeListD ((d, t) :: queue) =
      sizeListD (queue ++ t.children.map (fun c => (d + 1, c))) + 1 := by
  unfold sizeListD
  simp only [List.map_cons, List.map_append, List.map_map]
  have hmap : (t.children.map (fun c => (d + 1, c))).map Prod.snd = t.children := by
    simp
  simp only [List.map_map] at hmap
  rw [PTree.sizeList_cons]
  rw [PTree.sizeList_append]
  rw [hmap, PTree.size_eq]
  omega

theorem levelOrderDAux_nil (fuel : Nat) : levelOrderDAux fuel [] = [] := by
  cases fuel <;> rfl

theorem levelOrderD_nil : levelOrderD [] = [] := rfl

theorem levelOrderD_cons (d : Nat) (t : PTree) (queue : List (Nat × PTree)) :
    levelOrderD ((d, t) :: queue) =
      (d, t) :: levelOrderD (queue ++ t.children.map (fun c => (d + 1, c))) := by
  unfold levelOrderD
  rw [sizeListD_cons_eq]
  rfl

theorem Runner.find_child_search_q_eq_find?_aux (child_name : String) :
    ∀ (n : Nat) (queue : List PTree), PTree.sizeList queue ≤ n →
      Runner.find_child_search_q child_name queue =
        ((levelOrderQ queue).find?
            (fun x => Runner.find_process_name x == some child_name)).map PTree.pid := by
  intro n
  induction n with
  | zero =>
    intro queue h
    cases queue with
    | nil => simp [Runner.find_child_search_q_nil, levelOrderQ_nil]
    | cons t ts =>
      rw [PTree.sizeList_cons] at h
      have := PTree.size_pos t
      omega
  | succ n ih =>
    intro queue h
    cases queue with
    | nil => simp [Runner.find_child_search_q_nil, levelOrderQ_nil]
    | cons t ts =>
      rw [Runner.find_child_search_q_cons, levelOrderQ_cons]
      by_cases hc : Runner.find_process_name t = some child_name
      · rw [if_pos hc, List.find?_cons_of_pos _ (by simp [hc])]
        simp
      · rw [if_neg hc, List.find?_cons_of_neg _ (by simp [hc])]
        apply ih
        rw [PTree.sizeList_cons_eq] at h
        omega

theorem Runner.find_child_search_q_eq_find? (child_name : String) (queue : List PTree) :
    Runner.find_child_search_q child_name queue =
      ((levelOrderQ queue).find?
          (fun x => Runner.find_process_name x == some child_name)).map PTree.pid :=
  Runner.find_child_search_q_eq_find?_aux child_name (PTree.sizeList queue) queue le_rfl

theorem Runner.find_child_search_eq_find? (t : PTree) (child_name : String) :
    Runner.find_child_search t child_name =
      ((levelOrderQ [t]).find?
          (fun x => Runner.find_process_name x == some child_name)).map PTree.pid :=
  Runner.find_child_search_q_eq_find? child_name [t]

theorem mem_levelOrderQ_aux :
    ∀ (n : Nat) (queue : List PTree), PTree.sizeList queue ≤ n →
      ∀ x, x ∈ levelOrderQ queue ↔ x ∈ PTree.allNodesList queue := by
  intro n
  induction n with
  | zero =>
    intro queue h x
    cases queue with
    | nil => simp [levelOrderQ_nil, PTree.allNodesList_nil]
    | cons t ts =>
      rw [PTree.sizeList_cons] at h
      have := PTree.size_pos t
      omega
  | succ n ih =>
    intro queue h x
    cases queue with
    | nil => simp [levelOrderQ_nil, PTree.allNodesList_nil]
    | cons t ts =>
      rw [levelOrderQ_cons, PTree.allNodesList_cons, PTree.allNodes_eq]
      have hb : PTree.sizeList (ts ++ t.children) ≤ n := by
        rw [PTree.sizeList_cons_eq] at h
        omega
      have hrec := ih (ts ++ t.children) hb x
      rw [PTree.allNodesList_append] at hrec
      simp only [List.mem_cons, List.mem_append] at *
      tauto

theorem mem_levelOrderQ (queue : List PTree) (x : PTree) :
    x ∈ levelOrderQ queue ↔ x ∈ PTree.allNodesList queue :=
  mem_levelOrderQ_aux (PTree.sizeList queue) queue le_rfl x

theorem mem_levelOrderQ_singleton (t x : PTree) :
    x ∈ levelOrderQ [t] ↔ x ∈ t.allNodes := by
  rw [mem_levelOrderQ, PTree.allNodesList_singleton]

theorem Runner.find_child_search_eq_none (t : PTree) (child_name : String)
    (h : ∀ x ∈ t.allNodes, Runner.find_process_name x ≠ some child_name) :
    Runner.find_child_search t child_name = none := by
  rw [Runner.find_child_search_eq_find?]
  have : (levelOrderQ [t]).find?
      (fun x => Runner.find_process_name x == some child_name) = none := by
    apply List.find?_eq_none.mpr
    intro x hx
    have hx' := (mem_levelOrderQ_singleton t x).mp hx
    simp [h x hx']
  rw [this]
  rfl

theorem Runner.find_child_search_sound (t : PTree) (child_name : String) (q : Nat)
    (h : Runner.find_child_search t child_name = some q) :
    ∃ x ∈ t.allNodes, x.pid = q ∧ Runner.find_process_name x = some child_name := by
  rw [Runner.find_child_search_eq_find?] at h
  rw [Option.map_eq_some'] at h
  obtain ⟨x, hfind, hpid⟩ := h
  refine ⟨x, ?_, hpid, ?_⟩
  · exact (mem_levelOrderQ_singleton t x).mp (List.mem_of_find?_eq_some hfind)
  · have := List.find?_some hfind
    simpa using this

theorem find_process_name_agree (t : PTree) (h : t.ps ≠ none) :
    SetupRunner.find_process_name t = .ok (Runner.find_process_name t) := by
  unfold SetupRunner.find_process_name Runner.find_process_name
  cases hps : t.ps with
  | none => exact absurd hps h
  | some s => rfl

theorem SetupRunner.find_child_search_q_agree_aux (child_name : String) :
    ∀ (n : Nat) (queue : List PTree), PTree.sizeList queue ≤ n →
      (∀ x ∈ PTree.allNodesList queue, x.ps ≠ none) →
      SetupRunner.find_child_search_q child_name queue =
        .ok (Runner.find_child_search_q child_name queue) := by
  intro n
  induction n with
  | zero =>
    intro queue h hall
    cases queue with
    | nil => simp [SetupRunner.find_child_search_q_nil_s, Runner.find_child_search_q_nil]
    | cons t ts =>
      rw [PTree.sizeList_cons] at h
      have := PTree.size_pos t
      omega
  | succ n ih =>
    intro queue h hall
    cases queue with
    | nil => simp [SetupRunner.find_child_search_q_nil_s, Runner.find_child_search_q_nil]
    | cons t ts =>
      rw [SetupRunner.find_child_search_q_cons_s, Runner.find_child_search_q_cons]
      have htps : t.ps ≠ none := by
        apply hall t
        rw [PTree.allNodesList_cons, PTree.allNodes_eq]
        simp
      rw [find_process_name_agree t htps]
      by_cases hc : Runner.find_process_name t = some child_name
      · simp [hc]
      · simp only [hc, if_false, if_neg hc]
        apply ih
        · rw [PTree.sizeList_cons_eq] at h
          omega
        · intro x hx
          apply hall x
          rw [PTree.allNodesList_append] at hx
          rw [PTree.allNodesList_cons, PTree.allNodes_eq]
          simp only [List.mem_append, List.mem_cons] at *
          tauto

theorem SetupRunner.find_child_search_agree (t : PTree) (child_name : String)
    (hall : ∀ x ∈ t.allNodes, x.ps ≠ none) :
    SetupRunner.find_child_search t child_name =
      .ok (Runner.find_child_search t child_name) := by
  apply SetupRunner.find_child_search_q_agree_aux child_name (PTree.sizeList [t]) [t] le_rfl
  intro x hx
  rw [PTree.allNodesList_singleton] at hx
  exact hall x hx

theorem map_snd_levelOrderD_aux :
    ∀ (n : Nat) (queue : List (Nat × PTree)), sizeListD queue ≤ n →
      (levelOrderD queue).map Prod.snd = levelOrderQ (queue.map Prod.snd) := by
  intro n
  induction n with
  | zero =>
    intro queue h
    cases queue with
    | nil => simp [levelOrderD_nil, levelOrderQ_nil]
    | cons e ts =>
      obtain ⟨d, t⟩ := e
      rw [sizeListD_cons_eq] at h
      omega
  | succ n ih =>
    intro queue h
    cases queue with
    | nil => simp [levelOrderD_nil, levelOrderQ_nil]
    | cons e ts =>
      obtain ⟨d, t⟩ := e
      rw [levelOrderD_cons]
      have hmap : (ts ++ t.children.map (fun c => (d + 1, c))).map Prod.snd =
          ts.map Prod.snd ++ t.children := by
        simp
      have hb : sizeListD (ts ++ t.children.map (fun c => (d + 1, c))) ≤ n := by
        rw [sizeListD_cons_eq] at h
        omega
      rw [List.map_cons, ih _ hb, hmap, List.map_cons, levelOrderQ_cons]

theorem map_snd_levelOrderD (queue : List (Nat × PTree)) :
    (levelOrderD queue).map Prod.snd = levelOrderQ (queue.map Prod.snd) :=
  map_snd_levelOrderD_aux (sizeListD queue) queue le_rfl

theorem levelOrderD_lb_aux :
    ∀ (n : Nat) (queue : List (Nat × PTree)) (c : Nat), sizeListD queue ≤ n →
      (∀ e ∈ queue, c ≤ e.1) → ∀ y ∈ levelOrderD queue, c ≤ y.1 := by
  intro n
  induction n with
  | zero =>
    intro queue c h hq y hy
    cases queue with
    | nil => simp [levelOrderD_nil] at hy
    | cons e ts =>
      obtain ⟨d, t⟩ := e
      rw [sizeListD_cons_eq] at h
      omega
  | succ n ih =>
    intro queue c h hq y hy
    cases queue with
    | nil => simp [levelOrderD_nil] at hy
    | cons e ts =>
      obtain ⟨d, t⟩ := e
      rw [levelOrderD_cons] at hy
      rcases List.mem_cons.mp hy with hy | hy
      · subst hy
        exact hq (d, t) (List.mem_cons_self _ _)
      · have hb : sizeListD (ts ++ t.children.map (fun c => (d + 1, c))) ≤ n := by
          rw [sizeListD_cons_eq] at h
          omega
        refine ih _ c hb ?_ y hy
        intro e he
        rcases List.mem_append.mp he with he | he
        · exact hq e (List.mem_cons_of_mem _ he)
        · obtain ⟨c', _, rfl⟩ := List.mem_map.mp he
          have hd : c ≤ d := hq (d, t) (List.mem_cons_self _ _)
          omega

theorem pairwise_levelOrderD_aux :
    ∀ (n : Nat) (queue : List (Nat × PTree)), sizeListD queue ≤ n →
      queue.Pairwise (fun a b => a.1 ≤ b.1) →
      (∀ a ∈ queue, ∀ b ∈ queue, a.1 ≤ b.1 + 1) →
      (levelOrderD queue).Pairwise (fun a b => a.1 ≤ b.1) := by
  intro n
  induction n with
  | zero =>
    intro queue h hp hw
    cases queue with
    | nil => simp [levelOrderD_nil]
    | cons e ts =>
      obtain ⟨d, t⟩ := e
      rw [sizeListD_cons_eq] at h
      omega
  | succ n ih =>
    intro queue h hp hw
    cases queue with
    | nil => simp [levelOrderD_nil]
    | cons e ts =>
      obtain ⟨d, t⟩ := e
      rw [levelOrderD_cons]
      have hhead : ∀ b ∈ ts, d ≤ b.1 := by
        intro b hb
        exact (List.pairwise_cons.mp hp).1 b hb
      have htail : ts.Pairwise (fun a b => a.1 ≤ b.1) := (List.pairwise_cons.mp hp).2
      have hb : sizeListD (ts ++ t.children.map (fun c => (d + 1, c))) ≤ n := by
        rw [sizeListD_cons_eq] at h
        omega
      have hlow : ∀ e ∈ ts ++ t.children.map (fun c => (d + 1, c)), d ≤ e.1 := by
        intro e he
        rcases List.mem_append.mp he with he | he
        · exact hhead e he
        · obtain ⟨c', _, rfl⟩ := List.mem_map.mp he
          omega
      have hmapPW : (t.children.map (fun c => (d + 1, c))).Pairwise
          (fun a b => a.1 ≤ b.1) := by
        rw [List.pairwise_map]
        clear hlow hb hhead htail hp hw h ih
        induction t.children with
        | nil => simp
        | cons c cs ihc =>
          rw [List.pairwise_cons]
          exact ⟨fun b _ => le_rfl, ihc⟩
      have hPW' : (ts ++ t.children.map (fun c => (d + 1, c))).Pairwise
          (fun a b => a.1 ≤ b.1) := by
        rw [List.pairwise_append]
        refine ⟨htail, hmapPW, ?_⟩
        intro a ha b hb
        obtain ⟨c', _, rfl⟩ := List.mem_map.mp hb
        have := hw a (List.mem_cons_of_mem _ ha) (d, t) (List.mem_cons_self _ _)
        omega
      have hw' : ∀ a ∈ ts ++ t.children.map (fun c => (d + 1, c)),
          ∀ b ∈ ts ++ t.children.map (fun c => (d + 1, c)), a.1 ≤ b.1 + 1 := by
        intro a ha b hb
        rcases List.mem_append.mp ha with ha | ha <;>
          rcases List.mem_append.mp hb with hb | hb
        · exact hw a (List.mem_cons_of_mem _ ha) b (List.mem_cons_of_mem _ hb)
        · obtain ⟨c', _, rfl⟩ := List.mem_map.mp hb
          have := hw a (List.mem_cons_of_mem _ ha) (d, t) (List.mem_cons_self _ _)
          omega
        · obtain ⟨c', _, rfl⟩ := List.mem_map.mp ha
          have := hhead b hb
          omega
        · obtain ⟨c', _, rfl⟩ := List.mem_map.mp ha
          obtain ⟨c'', _, rfl⟩ := List.mem_map.mp hb
          omega
      rw [List.pairwise_cons]
      constructor
      · intro y hy
        exact levelOrderD_lb_aux (sizeListD _) _ d le_rfl hlow y hy
      · exact ih _ hb hPW' hw'

theorem pairwise_levelOrderD_root (t : PTree) :
    (levelOrderD [(0, t)]).Pairwise (fun a b => a.1 ≤ b.1) := by
  apply pairwise_levelOrderD_aux (sizeListD [(0, t)]) _ le_rfl
  · exact List.pairwise_singleton _ _
  · intro a ha b hb
    rw [List.mem_singleton] at ha hb
    subst ha
    subst hb
    omega

theorem find?_min_key :
    ∀ (L : List (Nat × PTree)) (p : Nat × PTree → Bool),
      L.Pairwise (fun a b => a.1 ≤ b.1) →
      ∀ a, L.find? p = some a → ∀ b ∈ L, p b = true → a.1 ≤ b.1 := by
  intro L
  induction L with
  | nil => intro p _ a ha; simp at ha
  | cons x xs ih =>
    intro p hpw a ha b hb hpb
    by_cases hx : p x = true
    · rw [List.find?_cons_of_pos _ hx] at ha
      injection ha with ha
      subst ha
      rcases List.mem_cons.mp hb with hb | hb
      · subst hb; exact le_rfl
      · exact (List.pairwise_cons.mp hpw).1 b hb
    · rw [List.find?_cons_of_neg _ hx] at ha
      rcases List.mem_cons.mp hb with hb | hb
      · subst hb; exact absurd hpb hx
      · exact ih p (List.pairwise_cons.mp hpw).2 a ha b hb hpb


theorem Runner.find_child_search_eq_find?D (t : PTree) (child_name : String) :
    Runner.find_child_search t child_name =
      ((levelOrderD [(0, t)]).find?
          (fun e => Runner.find_process_name e.2 == some child_name)).map
        (fun e => e.2.pid) := by
  rw [Runner.find_child_search_eq_find?]
  have hL : levelOrderQ [t] = (levelOrderD [(0, t)]).map Prod.snd := by
    rw [map_snd_levelOrderD]
    rfl
  rw [hL, List.find?_map Prod.snd (levelOrderD [(0, t)])]
  rw [Option.map_map]
  rfl

theorem PTree.killList_sound_aux :
    ∀ (n : Nat) (p : Nat) (ts : List PTree), PTree.sizeList ts ≤ n →
      ∀ x ∈ PTree.allNodesList (PTree.killList p ts),
        (x.pid = p → x.ps = none) ∧
        (x.pid ≠ p → ∃ y ∈ PTree.allNodesList ts, y.pid = x.pid ∧ y.ps = x.ps) := by
  intro n
  induction n with
  | zero =>
    intro p ts h x hx
    cases ts with
    | nil => simp [PTree.killList, PTree.allNodesList_nil] at hx
    | cons t ts' =>
      rw [PTree.sizeList_cons] at h
      have := PTree.size_pos t
      omega
  | succ n ih =>
    intro p ts h x hx
    cases ts with
    | nil => simp [PTree.killList, PTree.allNodesList_nil] at hx
    | cons t ts' =>
      obtain ⟨q, nm, cs⟩ := t
      have hsz : PTree.sizeList cs ≤ n ∧ PTree.sizeList ts' ≤ n := by
        rw [PTree.sizeList_cons, PTree.size_eq] at h
        simp only [PTree.children] at h
        constructor <;> omega
      have hxsplit : x ∈ PTree.allNodes (PTree.kill p (PTree.node q nm cs)) ∨
          x ∈ PTree.allNodesList (PTree.killList p ts') := by
        have : PTree.killList p (PTree.node q nm cs :: ts') =
            PTree.kill p (PTree.node q nm cs) :: PTree.killList p ts' := rfl
        rw [this, PTree.allNodesList_cons] at hx
        exact List.mem_append.mp hx
      rcases hxsplit with hx1 | hx2
      · by_cases hq : q = p
        · have hkill : PTree.kill p (PTree.node q nm cs) = PTree.node q none [] := by
            simp [PTree.kill, hq]
          rw [hkill, PTree.allNodes_eq] at hx1
          simp only [PTree.children, PTree.allNodesList_nil, List.mem_singleton] at hx1
          subst hx1
          constructor
          · intro _; rfl
          · intro hne
            exact absurd hq (by simpa [PTree.pid] using hne)
        · have hkill : PTree.kill p (PTree.node q nm cs) =
              PTree.node q nm (PTree.killList p cs) := by
            simp [PTree.kill, hq]
          rw [hkill, PTree.allNodes_eq] at hx1
          simp only [PTree.children] at hx1
          rcases List.mem_cons.mp hx1 with hx1 | hx1
          · subst hx1
            constructor
            · intro hpx
              simp only [PTree.pid] at hpx
              exact absurd hpx hq
            · intro _
              refine ⟨PTree.node q nm cs, ?_, rfl, rfl⟩
              rw [PTree.allNodesList_cons, PTree.allNodes_eq]
              simp
          · have hrec := ih p cs hsz.1 x hx1
            refine ⟨hrec.1, ?_⟩
            intro hne
            obtain ⟨y, hy, hy1, hy2⟩ := hrec.2 hne
            refine ⟨y, ?_, hy1, hy2⟩
            rw [PTree.allNodesList_cons, PTree.allNodes_eq]
            simp only [PTree.children, List.mem_append, List.mem_cons]
            left; right; exact hy
      · have hrec := ih p ts' hsz.2 x hx2
        refine ⟨hrec.1, ?_⟩
        intro hne
        obtain ⟨y, hy, hy1, hy2⟩ := hrec.2 hne
        refine ⟨y, ?_, hy1, hy2⟩
        rw [PTree.allNodesList_cons]
        exact List.mem_append.mpr (Or.inr hy)

theorem PTree.kill_sound (p : Nat) (t : PTree) :
    ∀ x ∈ (t.kill p).allNodes,
      (x.pid = p → x.ps = none) ∧
      (x.pid ≠ p → ∃ y ∈ t.allNodes, y.pid = x.pid ∧ y.ps = x.ps) := by
  intro x hx
  have hx' : x ∈ PTree.allNodesList (PTree.killList p [t]) := by
    have : PTree.killList p [t] = [t.kill p] := rfl
    rw [this, PTree.allNodesList_singleton]
    exact hx
  have := PTree.killList_sound_aux (PTree.sizeList [t]) p [t] le_rfl x hx'
  rw [PTree.allNodesList_singleton] at this
  exact this

theorem countP_le_one_eq {α : Type} (l : List α) (pr : α → Bool) (h : l.countP pr ≤ 1)
    (a b : α) (ha : a ∈ l) (hb : b ∈ l) (hpa : pr a = true) (hpb : pr b = true) : a = b := by
  have ha' : a ∈ l.filter pr := List.mem_filter.mpr ⟨ha, hpa⟩
  have hb' : b ∈ l.filter pr := List.mem_filter.mpr ⟨hb, hpb⟩
  rw [List.countP_eq_length_filter] at h
  cases hf : l.filter pr with
  | nil => rw [hf] at ha'; simp at ha'
  | cons x xs =>
    cases xs with
    | nil =>
      rw [hf] at ha' hb'
      rw [List.mem_singleton] at ha' hb'
      rw [ha', hb']
    | cons y ys =>
      rw [hf] at h
      simp at h

theorem Runner.find_process_name_of_ps (t : PTree) (nm : String)
    (h : Runner.find_process_name t = some nm) : t.ps = some nm := by
  obtain ⟨p, n, cs⟩ := t
  cases n with
  | none => simp [Runner.find_process_name, PTree.ps] at h
  | some s =>
    by_cases hs : s = ""
    · simp [Runner.find_process_name, PTree.ps, hs] at h
    · simp only [Runner.find_process_name, PTree.ps, if_neg hs, Option.some.injEq] at h
      subst h
      rfl

theorem Runner.find_process_name_congr (x y : PTree) (h : x.ps = y.ps) :
    Runner.find_process_name x = Runner.find_process_name y := by
  unfold Runner.find_process_name
  rw [h]

theorem PTree.kill_unique_no_match (t : PTree) (nm : String) (q : Nat)
    (hcount : countMatches t nm ≤ 1)
    (hm : ∃ m ∈ t.allNodes, m.pid = q ∧ Runner.find_process_name m = some nm) :
    ∀ x ∈ (t.kill q).allNodes, Runner.find_process_name x ≠ some nm := by
  intro x hx hmatch
  obtain ⟨m, hmMem, hmPid, hmMatch⟩ := hm
  have hps : x.ps = some nm := Runner.find_process_name_of_ps x nm hmatch
  have hsound := PTree.kill_sound q t x hx
  have hxpid : x.pid ≠ q := by
    intro hxq
    have := hsound.1 hxq
    rw [hps] at this
    exact Option.noConfusion this
  obtain ⟨y, hyMem, hyPid, hyPs⟩ := hsound.2 hxpid
  have hyMatch : Runner.find_process_name y = some nm := by
    rw [Runner.find_process_name_congr y x hyPs]
    exact hmatch
  have : y = m := by
    apply countP_le_one_eq t.allNodes
        (fun n => Runner.find_process_name n == some nm) hcount y m hyMem hmMem
    · simp [hyMatch]
    · simp [hmMatch]
  rw [this, hmPid] at hyPid
  exact hxpid hyPid.symm

theorem afterEv_nil (p q : Ev → Bool) : afterEv p q [] = false := rfl

theorem afterEv_of_no_p (p q : Ev → Bool) :
    ∀ l : List Ev, l.any p = false → afterEv p q l = false := by
  intro l
  induction l with
  | nil => intro _; rfl
  | cons e rest ih =>
    intro h
    rw [List.any_cons] at h
    rw [Bool.or_eq_false_iff] at h
    unfold afterEv
    rw [h.1, ih h.2]
    rfl

theorem afterEv_of_no_q (p q : Ev → Bool) :
    ∀ l : List Ev, l.any q = false → afterEv p q l = false := by
  intro l
  induction l with
  | nil => intro _; rfl
  | cons e rest ih =>
    intro h
    rw [List.any_cons, Bool.or_eq_false_iff] at h
    unfold afterEv
    rw [h.2, ih h.2, Bool.and_false]
    rfl

theorem afterEv_append_false (p q : Ev → Bool) :
    ∀ xs ys : List Ev, afterEv p q xs = false → afterEv p q ys = false →
      xs.any p = false ∨ ys.any q = false → afterEv p q (xs ++ ys) = false := by
  intro xs
  induction xs with
  | nil => intro ys _ hys _; exact hys
  | cons e xs' ih =>
    intro ys hxs hys hcross
    simp only [afterEv] at hxs ⊢
    rw [Bool.or_eq_false_iff] at hxs
    rw [Bool.or_eq_false_iff]
    rcases hcross with hxp | hyq
    · rw [List.any_cons, Bool.or_eq_false_iff] at hxp
      constructor
      · rw [hxp.1]; rfl
      · exact ih ys hxs.2 hys (Or.inl hxp.2)
    · constructor
      · rw [List.append_eq, List.any_append, hyq, Bool.or_false]
        rw [Bool.and_eq_false_iff] at hxs ⊢
        rcases hxs.1 with h1 | h1
        · exact Or.inl h1
        · exact Or.inr h1
      · exact ih ys hxs.2 hys (Or.inr hyq)

theorem Runner.stop_runner_tr_cases (w : World) :
    (Runner.stop_runner w).tr = [] ∨
      (∃ p, (Runner.stop_runner w).tr = [Ev.locate p LISTENER]) ∨
      (∃ p k, (Runner.stop_runner w).tr = [Ev.locate p LISTENER, Ev.kill k]) := by
  unfold Runner.stop_runner withChdir
  by_cases hf : w.folder
  · simp only [hf, Bool.not_true, Bool.false_eq_true, if_false]
    cases hpid : w.pidFile with
    | none => simp
    | some s =>
      by_cases hs : s = ""
      · simp [hs]
      · simp only [hs, if_false, if_neg hs]
        cases hp : pyInt s with
        | none => simp [hp]
        | some p =>
          cases hfind : Runner.find_child_search (w.treeOf p) LISTENER with
          | none => simp [hfind]
          | some k =>
            simp only [hfind]
            right; right
            exact ⟨p, k, rfl⟩
  · simp only [hf]
    simp

theorem Runner.stop_runner_no_destructive (w : World) :
    (Runner.stop_runner w).tr.any Ev.isDestructive = false := by
  rcases Runner.stop_runner_tr_cases w with h | ⟨p, h⟩ | ⟨p, k, h⟩ <;>
    simp [h, Ev.isDestructive]

theorem Runner.stop_runner_no_remove (w : World) :
    (Runner.stop_runner w).tr.any Ev.isRemove = false := by
  rcases Runner.stop_runner_tr_cases w with h | ⟨p, h⟩ | ⟨p, k, h⟩ <;>
    simp [h, Ev.isRemove]

theorem Runner.remove_runner_tr_cases (token : String) (w : World) :
    (Runner.remove_runner token w).tr = [] ∨
      (Runner.remove_runner token w).tr = [Ev.vendorRemove token] ∨
      (Runner.remove_runner token w).tr = [Ev.vendorRemove token, Ev.rmtree] ∨
      (Runner.remove_runner token w).tr = [Ev.rmtree] := by
  unfold Runner.remove_runner withChdir
  by_cases hf : w.folder
  · simp only [hf, Bool.not_true, Bool.false_eq_true, if_false]
    by_cases hcfg : w.configSh
    · by_cases hexit : w.removeExit ≠ 0
      · simp [hcfg, hexit]
      · simp [hcfg, hexit]
    · simp [hcfg]
  · simp [hf]

theorem Runner.remove_runner_no_kill (token : String) (w : World) :
    (Runner.remove_runner token w).tr.any Ev.isKill = false := by
  rcases Runner.remove_runner_tr_cases token w with h | h | h | h <;>
    simp [h, Ev.isKill]

theorem SetupRunner.remove_old_runner_tr_cases (w : World) :
    (SetupRunner.remove_old_runner w).tr = [] ∨
      ∃ t, (SetupRunner.remove_old_runner w).tr = [Ev.vendorRemove t] := by
  unfold SetupRunner.remove_old_runner withChdir
  by_cases hf : w.folder
  · simp only [hf, Bool.not_true, Bool.false_eq_true, if_false]
    cases htok : w.tokenFile with
    | none => simp
    | some t =>
      by_cases ht : t = ""
      · simp [ht]
      · right
        refine ⟨t, ?_⟩
        dsimp only
        rw [if_neg ht]
        split <;> rfl
  · simp [hf]

theorem SetupRunner.remove_old_runner_no_kill (w : World) :
    (SetupRunner.remove_old_runner w).tr.any Ev.isKill = false := by
  rcases SetupRunner.remove_old_runner_tr_cases w with h | ⟨t, h⟩ <;>
    simp [h, Ev.isKill]

theorem SetupRunner.stop_old_runner_tr_cases (w : World) :
    (SetupRunner.stop_old_runner w).tr = [] ∨
      ∃ p, (SetupRunner.stop_old_runner w).tr = [Ev.kill p] := by
  unfold SetupRunner.stop_old_runner withChdir
  by_cases hf : w.folder
  · simp only [hf, Bool.not_true, Bool.false_eq_true, if_false]
    cases hpid : w.pidFile with
    | none => simp
    | some s =>
      by_cases hs : s = ""
      · simp [hs]
      · simp only [hs, if_false, if_neg hs]
        cases hp : pyInt s with
        | none => simp [hp]
        | some p =>
          by_cases hps : (w.treeOf p).ps = none
          · simp [hp, hps]
          · simp only [hp, if_neg hps]
            right; exact ⟨p, rfl⟩
  · simp [hf]

theorem SetupRunner.stop_old_runner_no_remove (w : World) :
    (SetupRunner.stop_old_runner w).tr.any Ev.isRemove = false := by
  rcases SetupRunner.stop_old_runner_tr_cases w with h | ⟨p, h⟩ <;>
    simp [h, Ev.isRemove]

theorem withChdir_cwd (path : String) (body : World → Res) (w : World) :
    (withChdir path body w).world.cwd = w.cwd := rfl

theorem Runner.stop_runner_cwd (w : World) :
    (Runner.stop_runner w).world.cwd = w.cwd := by
  unfold Runner.stop_runner
  by_cases hf : w.folder <;> simp [hf, withChdir_cwd]

theorem Runner.remove_runner_cwd (token : String) (w : World) :
    (Runner.remove_runner token w).world.cwd = w.cwd := by
  unfold Runner.remove_runner
  by_cases hf : w.folder
  · simp only [hf, Bool.not_true, Bool.false_eq_true, if_false]
    split <;> simp [withChdir_cwd]
  · simp [hf]

theorem Runner.clean_up_cwd (token : String) (w : World) :
    (Runner.clean_up token w).world.cwd = w.cwd := by
  unfold Runner.clean_up
  by_cases hf : w.folder
  · simp only [hf, Bool.not_true, Bool.false_eq_true, if_false]
    split
    · exact Runner.stop_runner_cwd w
    · rw [Runner.remove_runner_cwd, Runner.stop_runner_cwd]
  · simp [hf]

theorem Runner.start_cwd (w : World) :
    (Runner.start w).world.cwd = w.cwd := by
  simp only [Runner.start]
  split
  · exact Runner.stop_runner_cwd w
  · split
    · exact Runner.stop_runner_cwd w
    · rw [withChdir_cwd, Runner.stop_runner_cwd]

theorem Runner.setup_cwd (flags : Flags) (w : World) :
    (Runner.setup flags w).world.cwd = w.cwd := by
  unfold Runner.setup
  split
  · rfl
  · exact withChdir_cwd _ _ _

theorem SetupRunner.stop_old_runner_cwd (w : World) :
    (SetupRunner.stop_old_runner w).world.cwd = w.cwd := by
  unfold SetupRunner.stop_old_runner
  by_cases hf : w.folder <;> simp [hf, withChdir_cwd]

theorem SetupRunner.remove_old_runner_cwd (w : World) :
    (SetupRunner.remove_old_runner w).world.cwd = w.cwd := by
  unfold SetupRunner.remove_old_runner
  by_cases hf : w.folder <;> simp [hf, withChdir_cwd]

theorem SetupRunner.clean_up_cwd_s (w : World) :
    (SetupRunner.clean_up w).world.cwd = w.cwd := by
  unfold SetupRunner.clean_up
  by_cases hf : w.folder
  · simp only [hf, Bool.not_true, Bool.false_eq_true, if_false]
    split
    · exact SetupRunner.remove_old_runner_cwd w
    · split
      · rw [SetupRunner.stop_old_runner_cwd, SetupRunner.remove_old_runner_cwd]
      · show (SetupRunner.stop_old_runner (SetupRunner.remove_old_runner w).world).world.cwd
          = w.cwd
        rw [SetupRunner.stop_old_runner_cwd, SetupRunner.remove_old_runner_cwd]
  · simp [hf]

theorem SetupRunner.start_cwd_s (w : World) :
    (SetupRunner.start w).world.cwd = w.cwd := by
  simp only [SetupRunner.start]
  split
  · exact SetupRunner.stop_old_runner_cwd w
  · split
    · exact SetupRunner.stop_old_runner_cwd w
    · rw [withChdir_cwd, SetupRunner.stop_old_runner_cwd]

theorem SetupRunner.setup_cwd_s (flags : Flags) (w : World) :
    (SetupRunner.setup flags w).world.cwd = w.cwd := by
  unfold SetupRunner.setup
  split
  · rfl
  · exact withChdir_cwd _ _ _

/-- Claim C10: every lifecycle operation that changes into the work directory
(`setup`, `start`, `stop`, `remove`, and the `clean` composition, in both
script revisions) restores the caller's working directory before returning,
including when the operation raises an exception: the `Chdir` exit handler
restores the directory saved at construction unconditionally, so the final
world's working directory always equals the initial one. -/
theorem C10_chdir_restores_cwd (w : World) (token : String) (flags : Flags) :
    (Runner.setup flags w).world.cwd = w.cwd ∧
    (Runner.start w).world.cwd = w.cwd ∧
    (Runner.stop_runner w).world.cwd = w.cwd ∧
    (Runner.remove_runner token w).world.cwd = w.cwd ∧
    (Runner.clean_up token w).world.cwd = w.cwd ∧
    (SetupRunner.setup flags w).world.cwd = w.cwd ∧
    (SetupRunner.start w).world.cwd = w.cwd ∧
    (SetupRunner.stop_old_runner w).world.cwd = w.cwd ∧
    (SetupRunner.remove_old_runner w).world.cwd = w.cwd ∧
    (SetupRunner.clean_up w).world.cwd = w.cwd :=
  ⟨Runner.setup_cwd flags w, Runner.start_cwd w, Runner.stop_runner_cwd w,
   Runner.remove_runner_cwd token w, Runner.clean_up_cwd token w,
   SetupRunner.setup_cwd_s flags w, SetupRunner.start_cwd_s w,
   SetupRunner.stop_old_runner_cwd w, SetupRunner.remove_old_runner_cwd w,
   SetupRunner.clean_up_cwd_s w⟩

/-- Claim C3: `find_child_search` performs a breadth-first search: the queue
starts with the root; an empty queue yields NotFound; dequeuing a node
returns its pid when its name matches and otherwise enqueues its children
(parts 1-2, the loop recurrences); the result is the first match of the
level-order traversal (parts 3-4); a first match at depth `d₁` is at least as
shallow as any other match (part 5); and on a tree where every name query
succeeds the `setup-runner.py` revision computes the same search (part 6). -/
theorem C3_bfs_first_match_shallowest :
    (∀ child_name, Runner.find_child_search_q child_name [] = none) ∧
    (∀ child_name (t : PTree) (queue : List PTree),
      Runner.find_child_search_q child_name (t :: queue) =
        if Runner.find_process_name t = some child_name then some t.pid
        else Runner.find_child_search_q child_name (queue ++ t.children)) ∧
    (∀ (t : PTree) child_name,
      Runner.find_child_search t child_name =
        ((levelOrderQ [t]).find?
            (fun x => Runner.find_process_name x == some child_name)).map PTree.pid) ∧
    (∀ (t : PTree) child_name,
      Runner.find_child_search t child_name =
        ((levelOrderD [(0, t)]).find?
            (fun e => Runner.find_process_name e.2 == some child_name)).map
          (fun e => e.2.pid)) ∧
    (∀ (t : PTree) child_name (d₁ : Nat) (n₁ : PTree) (e : Nat × PTree),
      (levelOrderD [(0, t)]).find?
          (fun e => Runner.find_process_name e.2 == some child_name) = some (d₁, n₁) →
      e ∈ levelOrderD [(0, t)] → Runner.find_process_name e.2 = some child_name →
      d₁ ≤ e.1) ∧
    (∀ (t : PTree) child_name, (∀ x ∈ t.allNodes, x.ps ≠ none) →
      SetupRunner.find_child_search t child_name =
        .ok (Runner.find_child_search t child_name)) := by
  refine ⟨Runner.find_child_search_q_nil, ?_, ?_, ?_, ?_, ?_⟩
  · intro child_name t queue
    exact Runner.find_child_search_q_cons child_name t queue
  · intro t child_name
    exact Runner.find_child_search_eq_find? t child_name
  · intro t child_name
    exact Runner.find_child_search_eq_find?D t child_name
  · intro t child_name d₁ n₁ e hfind hmem hmatch
    have := find?_min_key (levelOrderD [(0, t)])
      (fun e => Runner.find_process_name e.2 == some child_name)
      (pairwise_levelOrderD_root t) (d₁, n₁) hfind e hmem (by simp [hmatch])
    simpa using this
  · intro t child_name hall
    exact SetupRunner.find_child_search_agree t child_name hall

/-- Witness for C3 at the concrete tree `c3tree`, which has `Runner.Listener`
nodes at depths 1 (pid 3) and 2 (pid 4): the search returns the shallow one,
its depth is at most the other match's depth, and the `setup-runner.py`
search agrees since every process in the tree is alive. -/
theorem C3_witness :
    Runner.find_child_search c3tree LISTENER = some 3 ∧
    1 ≤ ((2, PTree.node 4 (some "Runner.Listener") []) : Nat × PTree).1 ∧
    SetupRunner.find_child_search c3tree LISTENER =
      .ok (Runner.find_child_search c3tree LISTENER) :=
  ⟨by decide,
   C3_bfs_first_match_shallowest.2.2.2.2.1 c3tree LISTENER 1
     (PTree.node 3 (some "Runner.Listener") [])
     (2, PTree.node 4 (some "Runner.Listener") []) (by decide) (by decide) (by decide),
   C3_bfs_first_match_shallowest.2.2.2.2.2 c3tree LISTENER (by decide)⟩

/-- Counterexample to claim C4 as stated: the claim covers both revisions of
the locator, but in `setup-runner.py` a name query for an exited pid is not
caught, so on a tree with no matching descendant at all the search raises
`CalledProcessError` instead of returning NotFound. -/
theorem C4_counterexample :
    SetupRunner.find_child_search c4tree LISTENER = Except.error () ∧
    SetupRunner.find_child_search c4tree LISTENER ≠ Except.ok none ∧
    Runner.find_process_name c4tree ≠ some LISTENER ∧
    c4tree.allNodes.countP (fun n => Runner.find_process_name n == some LISTENER) = 0 := by
  refine ⟨rfl, ?_, by decide, by decide⟩
  intro h
  rw [show SetupRunner.find_child_search c4tree LISTENER = Except.error () from rfl] at h
  exact Except.noConfusion h

/-- Claim C4 as amended: the `runner.py` locator returns NotFound and never
throws when no descendant matches — its name query maps an exited pid to "no
name", which simply fails the comparison (parts 1-2) — while the
`setup-runner.py` locator propagates the failing name query as an exception
as soon as it dequeues an exited pid (part 3). -/
theorem C4_amended_locator_no_throw (t : PTree) (child_name : String)
    (hno : ∀ x ∈ t.allNodes, Runner.find_process_name x ≠ some child_name) :
    Runner.find_child_search t child_name = none ∧
    (∀ (p : Nat) (cs : List PTree),
      Runner.find_process_name (PTree.node p none cs) = none) ∧
    (∀ (t2 : PTree) (nm2 : String), t2.ps = none →
      SetupRunner.find_child_search t2 nm2 = Except.error ()) := by
  refine ⟨Runner.find_child_search_eq_none t child_name hno, fun p cs => rfl, ?_⟩
  intro t2 nm2 hps
  unfold SetupRunner.find_child_search SetupRunner.find_child_search_q
  have hsz : PTree.sizeList [t2] = PTree.sizeList t2.children + 1 := by
    rw [PTree.sizeList_cons, PTree.sizeList_nil, PTree.size_eq]
    omega
  rw [hsz]
  show (match SetupRunner.find_process_name t2 with
    | .error e => .error e
    | .ok n =>
      if n = some nm2 then .ok (some t2.pid)
      else SetupRunner.bfsAux nm2 (PTree.sizeList t2.children)
        ([] ++ find_child_processes t2)) = Except.error ()
  unfold SetupRunner.find_process_name
  rw [hps]

/-- Witness for the amended C4 at a tree whose only live process is a `bash`
root with an exited child: the `runner.py` search returns NotFound, and the
`setup-runner.py` search raises on the exited subtree. -/
theorem C4_witness :
    Runner.find_child_search (PTree.node 9 (some "bash") [c4tree]) LISTENER = none ∧
    Runner.find_process_name (PTree.node 5 none []) = none ∧
    SetupRunner.find_child_search c4tree LISTENER = Except.error () :=
  ⟨(C4_amended_locator_no_throw (PTree.node 9 (some "bash") [c4tree]) LISTENER
      (by decide)).1,
   (C4_amended_locator_no_throw (PTree.node 9 (some "bash") [c4tree]) LISTENER
      (by decide)).2.1 5 [],
   (C4_amended_locator_no_throw (PTree.node 9 (some "bash") [c4tree]) LISTENER
      (by decide)).2.2 c4tree LISTENER rfl⟩

theorem Runner.stop_runner_spec (w : World) (hf : w.folder = true) :
    Runner.stop_runner w =
      match w.pidFile with
      | none => ⟨w, none, []⟩
      | some s =>
        if s = "" then ⟨w, none, []⟩
        else
          match pyInt s with
          | none => ⟨w, some .valueError, []⟩
          | some p =>
            match Runner.find_child_search (w.treeOf p) LISTENER with
            | none => ⟨w, none, [.locate p LISTENER]⟩
            | some q => ⟨killWorld w q, none, [.locate p LISTENER, .kill q]⟩ := by
  obtain ⟨cwd, folder, pidFile, tokenFile, configSh, treeOf, runPid, iE, cE, rE⟩ := w
  replace hf : folder = true := hf
  subst hf
  unfold Runner.stop_runner withChdir
  cases pidFile with
  | none => rfl
  | some s =>
    by_cases hs : s = ""
    · subst hs
      rfl
    · simp only [if_neg hs]
      cases hp : pyInt s with
      | none => rfl
      | some p =>
        dsimp only
        cases hfind : Runner.find_child_search (treeOf p) LISTENER with
        | none => rfl
        | some q => rfl

theorem Runner.stop_runner_noop (w : World) (hf : w.folder = true)
    (h : w.pidFile = none ∨ w.pidFile = some "") :
    Runner.stop_runner w = ⟨w, none, []⟩ := by
  rw [Runner.stop_runner_spec w hf]
  rcases h with h | h
  · rw [h]
  · rw [h]
    simp

theorem Runner.stop_runner_eval_valueError (w : World) (hf : w.folder = true) (s : String)
    (hpid : w.pidFile = some s) (hs : s ≠ "") (hp : pyInt s = none) :
    Runner.stop_runner w = ⟨w, some .valueError, []⟩ := by
  rw [Runner.stop_runner_spec w hf, hpid]
  dsimp only
  rw [if_neg hs, hp]

theorem Runner.stop_runner_eval_stale (w : World) (hf : w.folder = true) (s : String) (p : Nat)
    (hpid : w.pidFile = some s) (hs : s ≠ "") (hp : pyInt s = some p)
    (hfind : Runner.find_child_search (w.treeOf p) LISTENER = none) :
    Runner.stop_runner w = ⟨w, none, [.locate p LISTENER]⟩ := by
  rw [Runner.stop_runner_spec w hf, hpid]
  dsimp only
  rw [if_neg hs, hp]
  dsimp only
  rw [hfind]

theorem Runner.stop_runner_eval_kill (w : World) (hf : w.folder = true) (s : String)
    (p q : Nat) (hpid : w.pidFile = some s) (hs : s ≠ "") (hp : pyInt s = some p)
    (hfind : Runner.find_child_search (w.treeOf p) LISTENER = some q) :
    Runner.stop_runner w = ⟨killWorld w q, none, [.locate p LISTENER, .kill q]⟩ := by
  rw [Runner.stop_runner_spec w hf, hpid]
  dsimp only
  rw [if_neg hs, hp]
  dsimp only
  rw [hfind]

/-- Claim C6: with the work directory present, `stop_runner` on an absent or
empty `.pid` file is a no-op that returns success (parts 1-2), and `stop_runner`
is idempotent: whenever a first call returns successfully — in particular
after it kills the recorded listener — a second call leaves the world
unchanged, returns success and sends no kill signal (part 3). The uniqueness
hypothesis says each process tree contains at most one `Runner.Listener`, the
situation the scripts operate in. -/
theorem C6_stop_noop_and_idempotent (w : World) (hf : w.folder = true)
    (huniq : ∀ p, countMatches (w.treeOf p) LISTENER ≤ 1) :
    (w.pidFile = none → Runner.stop_runner w = ⟨w, none, []⟩) ∧
    (w.pidFile = some "" → Runner.stop_runner w = ⟨w, none, []⟩) ∧
    (∀ w2 tr, Runner.stop_runner w = ⟨w2, none, tr⟩ →
      (Runner.stop_runner w2).world = w2 ∧ (Runner.stop_runner w2).err = none ∧
      ∀ q, Ev.kill q ∉ (Runner.stop_runner w2).tr) := by
  refine ⟨fun h => Runner.stop_runner_noop w hf (Or.inl h),
    fun h => Runner.stop_runner_noop w hf (Or.inr h), ?_⟩
  intro w2 tr h
  cases hpid : w.pidFile with
  | none =>
    rw [Runner.stop_runner_noop w hf (Or.inl hpid)] at h
    injection h with h1 h2 h3
    subst h1
    rw [Runner.stop_runner_noop w hf (Or.inl hpid)]
    exact ⟨rfl, rfl, by simp⟩
  | some s =>
    by_cases hs : s = ""
    · subst hs
      rw [Runner.stop_runner_noop w hf (Or.inr hpid)] at h
      injection h with h1 h2 h3
      subst h1
      rw [Runner.stop_runner_noop w hf (Or.inr hpid)]
      exact ⟨rfl, rfl, by simp⟩
    · cases hp : pyInt s with
      | none =>
        rw [Runner.stop_runner_eval_valueError w hf s hpid hs hp] at h
        injection h with h1 h2 h3
        exact absurd h2.symm (by simp)
      | some p =>
        cases hfind : Runner.find_child_search (w.treeOf p) LISTENER with
        | none =>
          have h1 := Runner.stop_runner_eval_stale w hf s p hpid hs hp hfind
          rw [h1] at h
          injection h with hw he ht
          subst hw
          rw [h1]
          exact ⟨rfl, rfl, by simp⟩
        | some q0 =>
          have h1 := Runner.stop_runner_eval_kill w hf s p q0 hpid hs hp hfind
          rw [h1] at h
          injection h with hw he ht
          subst hw
          have hf2 : (killWorld w q0).folder = true := hf
          have hpid2 : (killWorld w q0).pidFile = some s := hpid
          have hnone : Runner.find_child_search ((killWorld w q0).treeOf p) LISTENER
              = none := by
            show Runner.find_child_search ((w.treeOf p).kill q0) LISTENER = none
            apply Runner.find_child_search_eq_none
            exact PTree.kill_unique_no_match (w.treeOf p) LISTENER q0 (huniq p)
              (Runner.find_child_search_sound (w.treeOf p) LISTENER q0 hfind)
          rw [Runner.stop_runner_eval_stale (killWorld w q0) hf2 s p hpid2 hs hp hnone]
          exact ⟨rfl, rfl, by simp⟩

/-- Witness for C6 at `w6base` (recorded pid 7, unique listener at pid 8):
the first stop kills pid 8 yielding `w6killed`; the second stop leaves
`w6killed` unchanged, succeeds, and sends no kill. -/
theorem C6_witness :
    Runner.stop_runner w6base = ⟨w6killed, none, [Ev.locate 7 LISTENER, Ev.kill 8]⟩ ∧
    (Runner.stop_runner w6killed).world = w6killed ∧
    (Runner.stop_runner w6killed).err = none ∧
    Ev.kill 8 ∉ (Runner.stop_runner w6killed).tr := by
  have h1 : Runner.stop_runner w6base =
      ⟨w6killed, none, [Ev.locate 7 LISTENER, Ev.kill 8]⟩ := rfl
  have huniq : ∀ p, countMatches (w6base.treeOf p) LISTENER ≤ 1 := by
    intro p
    show countMatches (PTree.node 7 (some "bash") [PTree.node 8 (some "Runner.Listener") []])
        LISTENER ≤ 1
    decide
  have h2 := (C6_stop_noop_and_idempotent w6base rfl huniq).2.2 w6killed
      [Ev.locate 7 LISTENER, Ev.kill 8] h1
  exact ⟨h1, h2.1, h2.2.1, h2.2.2 8⟩

theorem Runner.setup_spec (flags : Flags) (w : World) (hf : w.folder = false) :
    Runner.setup flags w =
      if w.installExits.any (· ≠ 0) then
        ⟨{ w with folder := true, pidFile := none, tokenFile := none, configSh := false },
          some (.exc Runner.installMsg), []⟩
      else if w.configExit ≠ 0 then
        ⟨{ w with folder := true, pidFile := none, tokenFile := none, configSh := true },
          some (.exc (Runner.configMsg flags)), []⟩
      else
        ⟨{ w with
            folder := true
            pidFile := none
            tokenFile := some flags.token
            configSh := true }, none, []⟩ := by
  obtain ⟨cwd, folder, pidFile, tokenFile, configSh, treeOf, runPid, iE, cE, rE⟩ := w
  replace hf : folder = false := hf
  subst hf
  unfold Runner.setup withChdir
  dsimp only
  cases hi : iE.any (· ≠ 0) with
  | true => rfl
  | false =>
    by_cases hc : cE ≠ 0
    · simp only [if_pos hc]
      rfl
    · simp only [if_neg hc]
      rfl

theorem Runner.setup_eval_configError (flags : Flags) (w : World) (hf : w.folder = false)
    (hinst : w.installExits.any (· ≠ 0) = false) (hconf : w.configExit ≠ 0) :
    Runner.setup flags w =
      ⟨{ w with folder := true, pidFile := none, tokenFile := none, configSh := true },
        some (.exc (Runner.configMsg flags)), []⟩ := by
  rw [Runner.setup_spec flags w hf, if_neg (by rw [hinst]; simp), if_pos hconf]

theorem Runner.setup_eval_ok (flags : Flags) (w : World) (hf : w.folder = false)
    (hinst : w.installExits.any (· ≠ 0) = false) (hconf : w.configExit = 0) :
    Runner.setup flags w =
      ⟨{ w with
          folder := true
          pidFile := none
          tokenFile := some flags.token
          configSh := true }, none, []⟩ := by
  rw [Runner.setup_spec flags w hf, if_neg (by rw [hinst]; simp), if_neg (by simp [hconf])]

theorem Runner.remove_runner_spec (token : String) (w : World) (hf : w.folder = true) :
    Runner.remove_runner token w =
      if w.configSh then
        if w.removeExit ≠ 0 then ⟨w, some (.exc Runner.removalMsg), [.vendorRemove token]⟩
        else ⟨{ w with folder := false }, none, [.vendorRemove token, .rmtree]⟩
      else ⟨{ w with folder := false }, none, [.rmtree]⟩ := by
  obtain ⟨cwd, folder, pidFile, tokenFile, configSh, treeOf, runPid, iE, cE, rE⟩ := w
  replace hf : folder = true := hf
  subst hf
  unfold Runner.remove_runner withChdir
  dsimp only
  cases configSh with
  | true =>
    by_cases hexit : rE ≠ 0
    · simp only [if_pos hexit]
      rfl
    · simp only [if_neg hexit]
      rfl
  | false => rfl

theorem Runner.remove_runner_eval_fail (token : String) (w : World) (hf : w.folder = true)
    (hcfg : w.configSh = true) (hexit : w.removeExit ≠ 0) :
    Runner.remove_runner token w = ⟨w, some (.exc Runner.removalMsg), [.vendorRemove token]⟩ := by
  rw [Runner.remove_runner_spec token w hf, if_pos hcfg, if_pos hexit]

theorem Runner.remove_runner_eval_ok (token : String) (w : World) (hf : w.folder = true)
    (hcfg : w.configSh = true) (hexit : w.removeExit = 0) :
    Runner.remove_runner token w =
      ⟨{ w with folder := false }, none, [.vendorRemove token, .rmtree]⟩ := by
  rw [Runner.remove_runner_spec token w hf, if_pos hcfg, if_neg (by simp [hexit])]

/-- Claim C7: when `setup` runs with all install steps succeeding but the
configure/register step exiting nonzero, it raises the configuration error
whose message contains the stale-registration remediation hint, and the
work directory created earlier is not rolled back, so `isInstalled` is still
true after the failure. -/
theorem C7_setup_config_error_not_rolled_back (flags : Flags) (w : World)
    (hf : w.folder = false) (hinst : w.installExits.any (· ≠ 0) = false)
    (hconf : w.configExit ≠ 0) :
    (Runner.setup flags w).err = some (.exc (Runner.configMsg flags)) ∧
    (∃ pre post, Runner.configMsg flags = pre ++ (configHintCore ++ post)) ∧
    isInstalled (Runner.setup flags w).world = true := by
  rw [Runner.setup_eval_configError flags w hf hinst hconf]
  exact ⟨rfl,
    ⟨"Something went wrong doing configuration.\nIf the error is: \x27",
     "\x27\nThen try going to " ++ flags.url ++ "/settings/actions/runners" ++
       "\nand remove the runner with name: " ++ flags.name ++ " or use another name.",
     rfl⟩,
    rfl⟩

/-- Witness for C7 at `w7` (configure step exits 1) with flags `flags0`. -/
theorem C7_witness :
    w7.folder = false ∧
    (Runner.setup flags0 w7).err = some (.exc (Runner.configMsg flags0)) ∧
    isInstalled (Runner.setup flags0 w7).world = true :=
  ⟨rfl,
   (C7_setup_config_error_not_rolled_back flags0 w7 rfl (by decide) (by decide)).1,
   (C7_setup_config_error_not_rolled_back flags0 w7 rfl (by decide) (by decide)).2.2⟩

/-- Claim C8: in state Installed (with `config.sh` present), a failing vendor
removal command makes `remove_runner` raise the removal error with its
remediation hint and leaves the work directory — and the whole world —
untouched; a succeeding removal command deletes the work directory, so
`isInstalled` becomes false, including when `remove` directly follows a
successful `setup` with no intervening `start`. -/
theorem C8_remove_error_keeps_install (token : String) (w : World)
    (hf : w.folder = true) (hcfg : w.configSh = true) :
    (w.removeExit ≠ 0 →
      (Runner.remove_runner token w).err = some (.exc Runner.removalMsg) ∧
      (∃ pre, Runner.removalMsg = pre ++ Runner.removalHint) ∧
      isInstalled (Runner.remove_runner token w).world = true ∧
      (Runner.remove_runner token w).world = w) ∧
    (w.removeExit = 0 →
      (Runner.remove_runner token w).err = none ∧
      isInstalled (Runner.remove_runner token w).world = false) ∧
    (∀ (flags : Flags) (w0 : World), w0.folder = false →
      w0.installExits.any (· ≠ 0) = false → w0.configExit = 0 → w0.removeExit = 0 →
      (Runner.setup flags w0).err = none ∧
      (Runner.remove_runner token (Runner.setup flags w0).world).err = none ∧
      isInstalled (Runner.remove_runner token (Runner.setup flags w0).world).world
        = false) := by
  refine ⟨?_, ?_, ?_⟩
  · intro hexit
    rw [Runner.remove_runner_eval_fail token w hf hcfg hexit]
    exact ⟨rfl,
      ⟨"Error in runner removal: If \"Failed: Removing runner from the server\" ", rfl⟩,
      hf, rfl⟩
  · intro hexit
    rw [Runner.remove_runner_eval_ok token w hf hcfg hexit]
    exact ⟨rfl, rfl⟩
  · intro flags w0 hf0 hinst0 hconf0 hrem0
    rw [Runner.setup_eval_ok flags w0 hf0 hinst0 hconf0]
    have hok := Runner.remove_runner_eval_ok token
      { w0 with
        folder := true
        pidFile := none
        tokenFile := some flags.token
        configSh := true } rfl rfl hrem0
    rw [hok]
    exact ⟨rfl, rfl, rfl⟩

/-- Witness for C8 at `w8` (removal exits 1) and `w8ok` (removal exits 0). -/
theorem C8_witness :
    w8.removeExit ≠ 0 ∧
    (Runner.remove_runner "tok" w8).err = some (.exc Runner.removalMsg) ∧
    isInstalled (Runner.remove_runner "tok" w8).world = true ∧
    (Runner.remove_runner "tok" w8ok).err = none ∧
    isInstalled (Runner.remove_runner "tok" w8ok).world = false := by
  have hA := (C8_remove_error_keeps_install "tok" w8 rfl rfl).1 (by decide)
  have hB := (C8_remove_error_keeps_install "tok" w8ok rfl rfl).2.1 rfl
  exact ⟨by decide, hA.1, hA.2.2.1, hB.1, hB.2⟩

/-- Claim C9: on successful completion of `setup(config)`, the work
directory exists (`isInstalled` is true) and `readToken` returns exactly the
token from the configuration that was used to register. -/
theorem C9_setup_success_postcondition (flags : Flags) (w : World) (hf : w.folder = false)
    (hinst : w.installExits.any (· ≠ 0) = false) (hconf : w.configExit = 0)
    (htok : flags.token ≠ "") :
    (Runner.setup flags w).err = none ∧
    isInstalled (Runner.setup flags w).world = true ∧
    readToken (Runner.setup flags w).world = some flags.token := by
  rw [Runner.setup_eval_ok flags w hf hinst hconf]
  refine ⟨rfl, rfl, ?_⟩
  unfold readToken
  dsimp only
  rw [if_neg htok]

/-- Witness for C9 at `baseW` with flags `flags0`. -/
theorem C9_witness :
    baseW.folder = false ∧
    (Runner.setup flags0 baseW).err = none ∧
    isInstalled (Runner.setup flags0 baseW).world = true ∧
    readToken (Runner.setup flags0 baseW).world = some flags0.token := by
  have h := C9_setup_success_postcondition flags0 baseW rfl (by decide) rfl (by decide)
  exact ⟨rfl, h.1, h.2.1, h.2.2⟩

theorem SetupRunner.stop_old_runner_noop (w : World) (hf : w.folder = true)
    (hp : w.pidFile = none) : SetupRunner.stop_old_runner w = ⟨w, none, []⟩ := by
  obtain ⟨cwd, folder, pidFile, tokenFile, configSh, treeOf, runPid, iE, cE, rE⟩ := w
  replace hf : folder = true := hf
  replace hp : pidFile = none := hp
  subst hf
  subst hp
  unfold SetupRunner.stop_old_runner withChdir
  rfl

theorem SetupRunner.start_eval_s (w : World) (hf : w.folder = true) (hp : w.pidFile = none) :
    SetupRunner.start w =
      match SetupRunner.find_child_search (w.treeOf w.runPid) LISTENER with
      | .error _ =>
        ⟨w, some .calledProcessError, [.launch w.runPid, .locate w.runPid LISTENER]⟩
      | .ok none => ⟨w, none, [.launch w.runPid, .locate w.runPid LISTENER]⟩
      | .ok (some p) =>
        ⟨{ w with pidFile := some (toString p) }, none,
          [.launch w.runPid, .locate w.runPid LISTENER]⟩ := by
  have hstop := SetupRunner.stop_old_runner_noop w hf hp
  obtain ⟨cwd, folder, pidFile, tokenFile, configSh, treeOf, runPid, iE, cE, rE⟩ := w
  replace hf : folder = true := hf
  replace hp : pidFile = none := hp
  subst hf
  subst hp
  unfold SetupRunner.start
  rw [hstop]
  unfold withChdir
  dsimp only
  cases hfind : SetupRunner.find_child_search (treeOf runPid) LISTENER with
  | error e => rfl
  | ok v =>
    cases v with
    | none => rfl
    | some p => rfl

theorem Runner.start_eval (w : World) (hf : w.folder = true) (hp : w.pidFile = none) :
    Runner.start w =
      ⟨{ w with pidFile := some (toString w.runPid) }, none, [.launch w.runPid]⟩ := by
  obtain ⟨cwd, folder, pidFile, tokenFile, configSh, treeOf, runPid, iE, cE, rE⟩ := w
  replace hf : folder = true := hf
  replace hp : pidFile = none := hp
  subst hf
  subst hp
  unfold Runner.start Runner.stop_runner withChdir
  rfl

/-- Counterexample to claim C1 as stated: in `runner.py`, `start()` from an
installed world with no recorded pid and no discoverable `Runner.Listener`
anywhere still returns success and persists a pid — the launcher's own pid 42
— and its trace contains a launch but no locator invocation, contradicting
"persists a pid iff the locator found the listener" and "no listener found
leaves no pid recorded". -/
theorem C1_counterexample :
    Runner.find_child_search (c1w.treeOf c1w.runPid) LISTENER = none ∧
    (Runner.start c1w).err = none ∧
    (Runner.start c1w).world.pidFile = some "42" ∧
    (Runner.start c1w).tr = [Ev.launch 42] ∧
    Ev.locate 42 LISTENER ∉ (Runner.start c1w).tr :=
  ⟨rfl, rfl, rfl, rfl, by decide⟩

theorem SetupRunner.stop_old_runner_spec (w : World) (hf : w.folder = true) :
    SetupRunner.stop_old_runner w =
      match w.pidFile with
      | none => ⟨w, none, []⟩
      | some s =>
        if s = "" then ⟨w, none, []⟩
        else
          match pyInt s with
          | none => ⟨w, some .valueError, []⟩
          | some p =>
            if (w.treeOf p).ps = none then ⟨w, none, []⟩
            else ⟨killWorld w p, none, [.kill p]⟩ := by
  obtain ⟨cwd, folder, pidFile, tokenFile, configSh, treeOf, runPid, iE, cE, rE⟩ := w
  replace hf : folder = true := hf
  subst hf
  unfold SetupRunner.stop_old_runner withChdir
  cases pidFile with
  | none => rfl
  | some s =>
    by_cases hs : s = ""
    · subst hs
      rfl
    · simp only [if_neg hs]
      cases hp : pyInt s with
      | none => rfl
      | some p =>
        dsimp only
        by_cases hps : (treeOf p).ps = none
        · simp only [if_pos hps]
          rfl
        · simp only [if_neg hps]
          rfl

theorem SetupRunner.stop_old_runner_world_cases (w : World) (hf : w.folder = true) :
    (SetupRunner.stop_old_runner w).world = w ∨
      ∃ p, (SetupRunner.stop_old_runner w).world = killWorld w p := by
  rw [SetupRunner.stop_old_runner_spec w hf]
  cases hpid : w.pidFile with
  | none => exact Or.inl rfl
  | some s =>
    dsimp only
    by_cases hs : s = ""
    · rw [if_pos hs]
      exact Or.inl rfl
    · rw [if_neg hs]
      cases hp : pyInt s with
      | none => exact Or.inl rfl
      | some p =>
        dsimp only
        by_cases hps : (w.treeOf p).ps = none
        · rw [if_pos hps]
          exact Or.inl rfl
        · rw [if_neg hps]
          exact Or.inr ⟨p, rfl⟩

theorem Runner.stop_runner_world_cases (w : World) (hf : w.folder = true) :
    (Runner.stop_runner w).world = w ∨
      ∃ q, (Runner.stop_runner w).world = killWorld w q := by
  rw [Runner.stop_runner_spec w hf]
  cases hpid : w.pidFile with
  | none => exact Or.inl rfl
  | some s =>
    dsimp only
    by_cases hs : s = ""
    · rw [if_pos hs]
      exact Or.inl rfl
    · rw [if_neg hs]
      cases hp : pyInt s with
      | none => exact Or.inl rfl
      | some p =>
        dsimp only
        cases hfind : Runner.find_child_search (w.treeOf p) LISTENER with
        | none => exact Or.inl rfl
        | some q => exact Or.inr ⟨q, rfl⟩

theorem SetupRunner.stop_old_runner_preserves (w : World) (hf : w.folder = true) :
    (SetupRunner.stop_old_runner w).world.folder = true ∧
    (SetupRunner.stop_old_runner w).world.pidFile = w.pidFile ∧
    (SetupRunner.stop_old_runner w).world.runPid = w.runPid := by
  rcases SetupRunner.stop_old_runner_world_cases w hf with h | ⟨p, h⟩ <;> rw [h]
  · exact ⟨hf, rfl, rfl⟩
  · exact ⟨hf, rfl, rfl⟩

theorem Runner.stop_runner_preserves (w : World) (hf : w.folder = true) :
    (Runner.stop_runner w).world.folder = true ∧
    (Runner.stop_runner w).world.runPid = w.runPid := by
  rcases Runner.stop_runner_world_cases w hf with h | ⟨q, h⟩ <;> rw [h]
  · exact ⟨hf, rfl⟩
  · exact ⟨hf, rfl⟩

theorem SetupRunner.start_eval_general_s (w : World) (hf : w.folder = true)
    (herr : (SetupRunner.stop_old_runner w).err = none) :
    SetupRunner.start w =
      match SetupRunner.find_child_search
          ((SetupRunner.stop_old_runner w).world.treeOf
            (SetupRunner.stop_old_runner w).world.runPid) LISTENER with
      | .error _ =>
        ⟨(SetupRunner.stop_old_runner w).world, some .calledProcessError,
          (SetupRunner.stop_old_runner w).tr ++
            [.launch (SetupRunner.stop_old_runner w).world.runPid,
             .locate (SetupRunner.stop_old_runner w).world.runPid LISTENER]⟩
      | .ok none =>
        ⟨(SetupRunner.stop_old_runner w).world, none,
          (SetupRunner.stop_old_runner w).tr ++
            [.launch (SetupRunner.stop_old_runner w).world.runPid,
             .locate (SetupRunner.stop_old_runner w).world.runPid LISTENER]⟩
      | .ok (some p) =>
        ⟨{ (SetupRunner.stop_old_runner w).world with pidFile := some (toString p) }, none,
          (SetupRunner.stop_old_runner w).tr ++
            [.launch (SetupRunner.stop_old_runner w).world.runPid,
             .locate (SetupRunner.stop_old_runner w).world.runPid LISTENER]⟩ := by
  have hfold : (SetupRunner.stop_old_runner w).world.folder = true :=
    (SetupRunner.stop_old_runner_preserves w hf).1
  simp only [SetupRunner.start]
  rw [if_neg (by simp [herr]), if_neg (by simp [hfold])]
  unfold withChdir
  dsimp only
  cases hfind : SetupRunner.find_child_search
      ((SetupRunner.stop_old_runner w).world.treeOf
        (SetupRunner.stop_old_runner w).world.runPid) LISTENER with
  | error e => rfl
  | ok v =>
    cases v with
    | none => rfl
    | some p => rfl

theorem Runner.start_eval_general (w : World) (hf : w.folder = true)
    (herr : (Runner.stop_runner w).err = none) :
    Runner.start w =
      ⟨{ (Runner.stop_runner w).world with
          pidFile := some (toString (Runner.stop_runner w).world.runPid) }, none,
        (Runner.stop_runner w).tr ++ [Ev.launch (Runner.stop_runner w).world.runPid]⟩ := by
  have hfold : (Runner.stop_runner w).world.folder = true :=
    (Runner.stop_runner_preserves w hf).1
  simp only [Runner.start]
  rw [if_neg (by simp [herr]), if_neg (by simp [hfold])]
  unfold withChdir
  dsimp only

/-- Claim C1 as amended: in `setup-runner.py`, `start()` from any Installed
or Running state (work directory present) whose pre-clean stop returns
normally launches the run command and invokes the locator rooted at the
launched pid with target `Runner.Listener` (part 1); it persists the located
pid iff the locator found one: on a find the found pid is written (part 2),
and on a miss the operation returns success with the pid file left unchanged
— so a previously recorded (possibly stale) pid remains recorded, and only
when no pid was recorded beforehand is a subsequent `stop()` a no-op
(part 3). In `runner.py`, `start()` unconditionally persists the launcher's
own pid and performs no locator invocation after launching (part 4). When
the pre-clean stop raises, `start` propagates the exception without
launching in either revision's model of `setup-runner.py` (part 5). -/
theorem C1_amended_start_locator (w : World) (hf : w.folder = true)
    (herr : (SetupRunner.stop_old_runner w).err = none) :
    Ev.locate w.runPid LISTENER ∈ (SetupRunner.start w).tr ∧
    (∀ p, SetupRunner.find_child_search
        ((SetupRunner.stop_old_runner w).world.treeOf
          (SetupRunner.stop_old_runner w).world.runPid) LISTENER = Except.ok (some p) →
      (SetupRunner.start w).err = none ∧
      (SetupRunner.start w).world.pidFile = some (toString p)) ∧
    (SetupRunner.find_child_search
        ((SetupRunner.stop_old_runner w).world.treeOf
          (SetupRunner.stop_old_runner w).world.runPid) LISTENER = Except.ok none →
      (SetupRunner.start w).err = none ∧
      (SetupRunner.start w).world.pidFile = w.pidFile ∧
      (w.pidFile = none →
        SetupRunner.stop_old_runner (SetupRunner.start w).world =
          ⟨(SetupRunner.start w).world, none, []⟩)) ∧
    (∀ w2 : World, w2.folder = true → (Runner.stop_runner w2).err = none →
      (Runner.start w2).err = none ∧
      (Runner.start w2).world.pidFile = some (toString w2.runPid) ∧
      (Runner.start w2).tr = (Runner.stop_runner w2).tr ++ [Ev.launch w2.runPid] ∧
      ∀ r t, Ev.locate r t ∈ (Runner.start w2).tr →
        Ev.locate r t ∈ (Runner.stop_runner w2).tr) ∧
    (∀ w3 : World, (SetupRunner.stop_old_runner w3).err.isSome = true →
      SetupRunner.start w3 = SetupRunner.stop_old_runner w3) := by
  have hev := SetupRunner.start_eval_general_s w hf herr
  have hpres := SetupRunner.stop_old_runner_preserves w hf
  refine ⟨?_, ?_, ?_, ?_, ?_⟩
  · rw [hev]
    cases hfind : SetupRunner.find_child_search
        ((SetupRunner.stop_old_runner w).world.treeOf
          (SetupRunner.stop_old_runner w).world.runPid) LISTENER with
    | error e => simp [hpres.2.2]
    | ok v =>
      cases v with
      | none => simp [hpres.2.2]
      | some p => simp [hpres.2.2]
  · intro p hfind
    rw [hev, hfind]
    exact ⟨rfl, rfl⟩
  · intro hfind
    rw [hev, hfind]
    refine ⟨rfl, hpres.2.1, ?_⟩
    intro hpnone
    have hsw : SetupRunner.stop_old_runner w = ⟨w, none, []⟩ :=
      SetupRunner.stop_old_runner_noop w hf hpnone
    rw [hsw]
    exact SetupRunner.stop_old_runner_noop w hf hpnone
  · intro w2 hf2 herr2
    have hev2 := Runner.start_eval_general w2 hf2 herr2
    have hpres2 := Runner.stop_runner_preserves w2 hf2
    rw [hev2]
    refine ⟨rfl, ?_, ?_, ?_⟩
    · rw [hpres2.2]
    · rw [hpres2.2]
    · intro r t hmem
      rcases List.mem_append.mp hmem with h | h
      · exact h
      · simp at h
  · intro w3 h3
    simp only [SetupRunner.start]
    rw [if_pos h3]

/-- Witness for the amended C1: at `s1w` (fresh state, listener child pid 43
under the launched pid 42) the locator is invoked and pid 43 is persisted; at
`s1stale` (stale recorded pid 9, no listener anywhere) the start succeeds and
the stale pid 9 is still recorded afterwards; at `c1w` the `runner.py` start
persists the launcher pid 42 regardless. -/
theorem C1_witness :
    Ev.locate s1w.runPid LISTENER ∈ (SetupRunner.start s1w).tr ∧
    (SetupRunner.start s1w).err = none ∧
    (SetupRunner.start s1w).world.pidFile = some "43" ∧
    (SetupRunner.start s1stale).err = none ∧
    (SetupRunner.start s1stale).world.pidFile = some "9" ∧
    (Runner.start c1w).world.pidFile = some "42" := by
  have h1 := C1_amended_start_locator s1w rfl rfl
  have h2 := h1.2.1 43 rfl
  have h3 := (C1_amended_start_locator s1stale rfl rfl).2.2.1 rfl
  have h4 := (C1_amended_start_locator c1w rfl rfl).2.2.2.1 c1w rfl rfl
  exact ⟨h1.1, h2.1, h2.2, h3.1, h3.2.1, h4.2.1⟩

/-- Counterexample to claim C2 as stated: in `setup-runner.py`, `clean_up`
runs the vendor deregistration BEFORE stopping the recorded listener: from a
world with a live recorded listener (pid 9) and persisted token `"t0"`, the
trace is deregister, then kill, then delete — a kill occurs strictly after a
deregistration, so `clean` is not `stop()` followed by `remove(token)`. -/
theorem C2_counterexample :
    (SetupRunner.clean_up c2w).tr = [Ev.vendorRemove "t0", Ev.kill 9, Ev.rmtree] ∧
    afterEv Ev.isRemove Ev.isKill (SetupRunner.clean_up c2w).tr = true ∧
    (SetupRunner.clean_up c2w).err = none :=
  ⟨rfl, by decide, rfl⟩

/-- Claim C2 as amended: in `runner.py` the ordering guarantee holds — no
kill is attempted after a destructive or launching event in `clean_up`
(part 1) or `start` (part 2), and on the success path `clean_up token` is
exactly `stop_runner` followed by `remove_runner token` (part 4) — while in
`setup-runner.py` the order is reversed: in its `clean_up` no deregistration
ever follows a kill, because the removal runs first (part 3). -/
theorem C2_amended_stop_ordering (w : World) (token : String) :
    afterEv Ev.isDestructive Ev.isKill (Runner.clean_up token w).tr = false ∧
    afterEv Ev.isDestructive Ev.isKill (Runner.start w).tr = false ∧
    afterEv Ev.isKill Ev.isRemove (SetupRunner.clean_up w).tr = false ∧
    (w.folder = true → (Runner.stop_runner w).err = none →
      Runner.clean_up token w =
        ⟨(Runner.remove_runner token (Runner.stop_runner w).world).world,
         (Runner.remove_runner token (Runner.stop_runner w).world).err,
         (Runner.stop_runner w).tr ++
           (Runner.remove_runner token (Runner.stop_runner w).world).tr⟩) := by
  refine ⟨?_, ?_, ?_, ?_⟩
  · unfold Runner.clean_up
    by_cases hf : w.folder
    · simp only [hf, Bool.not_true, Bool.false_eq_true, if_false]
      split
      · exact afterEv_of_no_p _ _ _ (Runner.stop_runner_no_destructive w)
      · dsimp only
        apply afterEv_append_false
        · exact afterEv_of_no_p _ _ _ (Runner.stop_runner_no_destructive w)
        · exact afterEv_of_no_q _ _ _ (Runner.remove_runner_no_kill token _)
        · exact Or.inl (Runner.stop_runner_no_destructive w)
    · simp [hf, afterEv_nil]
  · simp only [Runner.start]
    split
    · exact afterEv_of_no_p _ _ _ (Runner.stop_runner_no_destructive w)
    · split
      · exact afterEv_of_no_p _ _ _ (Runner.stop_runner_no_destructive w)
      · dsimp only
        apply afterEv_append_false
        · exact afterEv_of_no_p _ _ _ (Runner.stop_runner_no_destructive w)
        · apply afterEv_of_no_q
          simp [Ev.isKill, withChdir]
        · exact Or.inl (Runner.stop_runner_no_destructive w)
  · unfold SetupRunner.clean_up
    by_cases hf : w.folder
    · simp only [hf, Bool.not_true, Bool.false_eq_true, if_false]
      split
      · exact afterEv_of_no_p _ _ _ (SetupRunner.remove_old_runner_no_kill w)
      · split
        · dsimp only
          apply afterEv_append_false
          · exact afterEv_of_no_p _ _ _ (SetupRunner.remove_old_runner_no_kill w)
          · exact afterEv_of_no_q _ _ _ (SetupRunner.stop_old_runner_no_remove _)
          · exact Or.inl (SetupRunner.remove_old_runner_no_kill w)
        · dsimp only
          apply afterEv_append_false
          · apply afterEv_append_false
            · exact afterEv_of_no_p _ _ _ (SetupRunner.remove_old_runner_no_kill w)
            · exact afterEv_of_no_q _ _ _ (SetupRunner.stop_old_runner_no_remove _)
            · exact Or.inl (SetupRunner.remove_old_runner_no_kill w)
          · decide
          · refine Or.inr ?_
            decide
    · simp [hf, afterEv_nil]
  · intro hf herr
    unfold Runner.clean_up
    simp only [hf, Bool.not_true, Bool.false_eq_true, if_false, herr, Option.isSome_none,
      if_false]

/-- Witness for the amended C2 at `c2w` (live listener at pid 9, persisted
token, vendor commands succeed). -/
theorem C2_witness :
    afterEv Ev.isDestructive Ev.isKill (Runner.clean_up "tokB" c2w).tr = false ∧
    afterEv Ev.isKill Ev.isRemove (SetupRunner.clean_up c2w).tr = false ∧
    Runner.clean_up "tokB" c2w =
      ⟨(Runner.remove_runner "tokB" (Runner.stop_runner c2w).world).world,
       (Runner.remove_runner "tokB" (Runner.stop_runner c2w).world).err,
       (Runner.stop_runner c2w).tr ++
         (Runner.remove_runner "tokB" (Runner.stop_runner c2w).world).tr⟩ := by
  have h := C2_amended_stop_ordering c2w "tokB"
  exact ⟨h.1, h.2.2.1, h.2.2.2 rfl rfl⟩

theorem SetupRunner.remove_old_runner_spec (w : World) (hf : w.folder = true) :
    SetupRunner.remove_old_runner w =
      match w.tokenFile with
      | none => ⟨w, none, []⟩
      | some t =>
        if t = "" then ⟨w, none, []⟩
        else if w.removeExit ≠ 0 then
          ⟨w, some (.exc SetupRunner.removeMsg), [.vendorRemove t]⟩
        else ⟨w, none, [.vendorRemove t]⟩ := by
  obtain ⟨cwd, folder, pidFile, tokenFile, configSh, treeOf, runPid, iE, cE, rE⟩ := w
  replace hf : folder = true := hf
  subst hf
  unfold SetupRunner.remove_old_runner withChdir
  cases tokenFile with
  | none => rfl
  | some t =>
    by_cases ht : t = ""
    · subst ht
      rfl
    · simp only [if_neg ht]
      by_cases hexit : rE ≠ 0
      · simp only [if_pos hexit]
        rfl
      · simp only [if_neg hexit]
        rfl

theorem SetupRunner.setup_spec_s (flags : Flags) (w : World) (hf : w.folder = false) :
    SetupRunner.setup flags w =
      if w.installExits.any (· ≠ 0) then
        ⟨{ w with folder := true, pidFile := none, tokenFile := none, configSh := false },
          some (.exc SetupRunner.installMsg), []⟩
      else if w.configExit ≠ 0 then
        ⟨{ w with folder := true, pidFile := none, tokenFile := none, configSh := true },
          some (.exc (SetupRunner.configMsg flags)), []⟩
      else
        ⟨{ w with
            folder := true
            pidFile := none
            tokenFile := some flags.token
            configSh := true }, none, []⟩ := by
  obtain ⟨cwd, folder, pidFile, tokenFile, configSh, treeOf, runPid, iE, cE, rE⟩ := w
  replace hf : folder = false := hf
  subst hf
  unfold SetupRunner.setup withChdir
  dsimp only
  cases hi : iE.any (· ≠ 0) with
  | true => rfl
  | false =>
    by_cases hc : cE ≠ 0
    · simp only [if_pos hc]
      rfl
    · simp only [if_neg hc]
      rfl

/-- Counterexample to claim C5 as stated: in `runner.py`, `remove_runner`
never reads the persisted token: from a world whose token file holds
`"tokA"`, a removal invoked with caller token `"tokB"` passes `"tokB"` to the
vendor command and the persisted `"tokA"` is never used, so the persisted
token is not what deregisters the runner. -/
theorem C5_counterexample :
    readToken c5w = some "tokA" ∧
    (Runner.remove_runner "tokB" c5w).tr = [Ev.vendorRemove "tokB", Ev.rmtree] ∧
    Ev.vendorRemove "tokA" ∉ (Runner.remove_runner "tokB" c5w).tr ∧
    (Runner.remove_runner "tokB" c5w).err = none :=
  ⟨rfl, rfl, by decide, rfl⟩

/-- Claim C5 as amended: in `setup-runner.py` the token persisted by `setup`
suffices for a later removal — `remove_old_runner` takes no token, reads the
persisted one and passes exactly it to the vendor removal command (parts
1-2), and a successful `setup` persists precisely the configured token
(part 3) — whereas in `runner.py` the vendor removal command always receives
the caller-supplied token (part 4). -/
theorem C5_amended_persisted_token (w : World) (t : String) (hf : w.folder = true)
    (ht : w.tokenFile = some t) (hne : t ≠ "") (hexit : w.removeExit = 0) :
    (SetupRunner.remove_old_runner w).err = none ∧
    (SetupRunner.remove_old_runner w).tr = [Ev.vendorRemove t] ∧
    (∀ (flags : Flags) (w0 : World), w0.folder = false →
      w0.installExits.any (· ≠ 0) = false → w0.configExit = 0 →
      (SetupRunner.setup flags w0).world.tokenFile = some flags.token) ∧
    (∀ (tok : String) (w1 : World), w1.folder = true → w1.configSh = true →
      w1.removeExit = 0 →
      (Runner.remove_runner tok w1).tr = [Ev.vendorRemove tok, Ev.rmtree]) := by
  have hspec := SetupRunner.remove_old_runner_spec w hf
  rw [ht] at hspec
  rw [hspec]
  dsimp only
  rw [if_neg hne, if_neg (by simp [hexit])]
  refine ⟨rfl, rfl, ?_, ?_⟩
  · intro flags w0 hf0 hinst0 hconf0
    rw [SetupRunner.setup_spec_s flags w0 hf0, if_neg (by rw [hinst0]; simp),
      if_neg (by simp [hconf0])]
  · intro tok w1 hf1 hcfg1 hexit1
    rw [Runner.remove_runner_eval_ok tok w1 hf1 hcfg1 hexit1]

/-- Witness for the amended C5 at `c5w` (persisted token `"tokA"`): the
`setup-runner.py` removal deregisters with exactly the persisted token. -/
theorem C5_witness :
    (SetupRunner.remove_old_runner c5w).err = none ∧
    (SetupRunner.remove_old_runner c5w).tr = [Ev.vendorRemove "tokA"] ∧
    (SetupRunner.setup flags0 baseW).world.tokenFile = some flags0.token := by
  have h := C5_amended_persisted_token c5w "tokA" rfl rfl (by decide) rfl
  exact ⟨h.1, h.2.1, h.2.2.1 flags0 baseW rfl (by decide) rfl⟩
